import Mathlib

/-
  Verification development for the lattice-polytope canonical-form engine
  (PALP, file build/pkgs/palp/patches/Polynf.c).

  The C code is shallowly embedded: `Long` and `GL_Long`/`SL_Long` become
  `Int` (the spec states all arithmetic is exact integer arithmetic),
  fixed-size C arrays become `List`-based matrices accessed through total
  getters with default 0 (mirroring that the C code never reads
  uninitialized entries on the paths embedded here), and the C `/` and `%`
  operators become `Int.tdiv` / `Int.tmod` (C99 truncated division).
  Functions that can `exit(0)` or `return 0` become functions into `PRes`,
  with `PalpErr.abort` for `exit(0)` (fatal) and `PalpErr.limitExceeded`
  for the recoverable failure return of the reduction routines.
  Compile-time configuration constants from Global.h (`NFX_Limit`,
  `X_Limit`, `VPM_Limit`, `SYM_Nmax`) are passed explicitly as parameters.
-/

namespace PalpNF

/-- Total getter for integer lists; C arrays are read through this (index is
always in bounds in the embedded code paths). -/
def lget (l : List Int) (i : Nat) : Int := l.getD i 0

/-- Total getter for index lists (permutation arrays). -/
def nget (l : List Nat) (i : Nat) : Nat := l.getD i 0

/-- Integer matrix, a list of rows. -/
abbrev Mat := List (List Int)

/-- Row access. -/
def mrow (M : Mat) (i : Nat) : List Int := M.getD i []

/-- Entry access. -/
def mget (M : Mat) (i j : Nat) : Int := lget (mrow M i) j

/-- Entry update. -/
def mset (M : Mat) (i j : Nat) (a : Int) : Mat := M.set i ((mrow M i).set j a)

/-- Swap two entries of an index list (C `swap(&C[i],&C[j])`). -/
def nswap (l : List Nat) (i j : Nat) : List Nat :=
  (l.set i (nget l j)).set j (nget l i)

/-- Swap two entries of an integer list. -/
def iswap (l : List Int) (i j : Nat) : List Int :=
  (l.set i (lget l j)).set j (lget l i)

/-- The two failure kinds of the engine: `abort` models `exit(0)` (fatal),
`limitExceeded` models the recoverable `return 0` of the reduction
routines on hitting the configured `NFX_Limit` bound. -/
inductive PalpErr : Type where
  | abort : PalpErr
  | limitExceeded : PalpErr
deriving DecidableEq, Repr

/-- Result of a fallible embedded routine. -/
inductive PRes (α : Type) : Type where
  | ok : α → PRes α
  | err : PalpErr → PRes α
deriving DecidableEq, Repr

def PRes.bind {α β : Type} : PRes α → (α → PRes β) → PRes β
  | .ok a, f => f a
  | .err e, _ => .err e

instance : Monad PRes where
  pure := PRes.ok
  bind := PRes.bind

/-- C source `GL_RoundQ`: round-to-nearest quotient used by the
improvement steps of `GL_W_to_GLZ`. -/
def GL_RoundQ (N D : Int) : Int :=
  let N' := if D < 0 then -N else N
  let D' := if D < 0 then -D else D
  let F := N'.tdiv D'
  F + (2 * (N' - F * D')).tdiv D'

/-- Loop of C source `GL_Egcd` (`while((A2 = A0 % A1)) ...`), returning the
final `A1` (the gcd up to sign) and the final `X1` (the cofactor of the
first original argument).  The recursion is bounded by a fuel argument;
`|A1|` strictly decreases at each iteration, so fuel `|A1| + 1` makes the
bound irrelevant (`GL_Egcd` passes exactly that), and the `A1 = 0` guard
is unreachable for the arguments arising in the embedded code (the C code
would divide by zero there). -/
def GL_Egcd_loop : Nat → Int → Int → Int → Int → Int × Int
  | 0, A0, _, _, X1 => (A0, X1)
  | fuel + 1, A0, A1, X0, X1 =>
    if A1 = 0 then (A0, X1)
    else
      let A2 := A0.tmod A1
      if A2 = 0 then (A1, X1)
      else GL_Egcd_loop fuel A1 A2 X1 (X0 - X1 * (A0.tdiv A1))

/-- C source `GL_Egcd`: returns `(g, Vout0, Vout1)` with
`A0*Vout0 + A1*Vout1 = g` and `g` the gcd of `A0, A1` up to sign. -/
def GL_Egcd (A0 A1 : Int) : Int × Int × Int :=
  let r := GL_Egcd_loop (A1.natAbs + 1) A0 A1 1 0
  (r.1, r.2, (r.1 - A0 * r.2).tdiv A1)

/-- Improvement rounds of C source `GL_W_to_GLZ` (the block marked
"I M P R O V E M E N T"): for `j` from `i-1` down to `1`, reduce the rows
`B` and `E` against row `j` of the matrix under construction, using
round-to-nearest quotients. -/
def GL_improve (GLZ : Mat) (i : Nat) (B E : List Int) : List Int × List Int :=
  ((List.range' 1 (i - 1)).reverse).foldl (fun (BE : List Int × List Int) j =>
    let Y := mrow GLZ j
    let rB := GL_RoundQ (lget BE.1 j) (lget Y j)
    let rE := GL_RoundQ (lget BE.2 j) (lget Y j)
    let B' := (List.range (j + 1)).foldl
      (fun r m => r.set m (lget r m - rB * lget Y m)) BE.1
    let E' := (List.range (j + 1)).foldl
      (fun r m => r.set m (lget r m - rE * lget Y m)) BE.2
    (B', E')) (B, E)

/-- C source `GL_W_to_GLZ`: builds a `d×d` unimodular matrix `GLZ` with
`GLZ·W = (g, 0, …, 0)` for the given vector `W` of `d` nonzero entries
(`d ≥ 2`); returns `(GLZ, g)` where `g` is the gcd of the entries of `W`
up to sign. -/
def GL_W_to_GLZ (W : List Int) (d : Nat) : Mat × Int :=
  let W0 := lget W 0
  let W1 := lget W 1
  let r0 := GL_Egcd W0 W1
  let G0 := r0.1
  let E0 := ((List.replicate d (0 : Int)).set 0 r0.2.1).set 1 r0.2.2
  let B0 := ((List.replicate d (0 : Int)).set 0 (-(W1.tdiv G0))).set 1 (W0.tdiv G0)
  let GLZ0 : Mat := ((List.replicate d (List.replicate d (0 : Int))).set 0 E0).set 1 B0
  ((List.range d).drop 2).foldl (fun (MG : Mat × Int) i =>
    let GLZ := MG.1
    let G := MG.2
    let Wi := lget W i
    let rg := GL_Egcd G Wi
    let g := rg.1
    let a := rg.2.1
    let b := rg.2.2
    let E := mrow GLZ 0
    let Gq := Wi.tdiv g
    let B1 := ((List.range i).foldl (fun r j => r.set j (-(lget E j) * Gq))
      (mrow GLZ i)).set i (G.tdiv g)
    let E1 := ((List.range i).foldl (fun r j => r.set j (lget E j * a)) E).set i b
    let BE := GL_improve GLZ i B1 E1
    ((GLZ.set 0 BE.2).set i BE.1, g)) (GLZ0, G0)

/-- The `n×n` identity matrix (C `G[i][j]=(i==j)`). -/
def idMat (n : Nat) : Mat :=
  (List.range n).map (fun i => (List.range n).map (fun j => if i = j then (1 : Int) else 0))

/-- Materialize column `c` of the working matrix:
`NF[i][c] += Σ_j G[i][j]·X[j][c]` for `i < n` (the column is zero
beforehand, and each column is materialized exactly once). -/
def matCol (G X : Mat) (n : Nat) (NF : Mat) (c : Nat) : Mat :=
  (List.range n).foldl (fun M i =>
    mset M i c (mget M i c + (List.range n).foldl
      (fun s j => s + mget G i j * mget X j c) 0)) NF

/-- Pivot-column search of `GLZ_Make_Trian_NF` (`while(N==0){++C;…}`):
starting at column `c`, materialize columns until one has a nonzero entry
in rows `L..n-1`; returns the updated working matrix, the found column,
the nonzero entries `W` and their row indices `p`.  Running past the last
column (rank-deficient input) is an out-of-bounds read in C, modelled as
abort. -/
def GLZ_findCol (G X : Mat) (n nv L : Nat) :
    Nat → Nat → Mat → PRes (Mat × Nat × List Int × List Nat)
  | 0, _, _ => .err .abort
  | fuel + 1, c, NF =>
    if c < nv then
      let NF' := matCol G X n NF c
      let p := (List.range' L (n - L)).filter (fun i => mget NF' i c != 0)
      if p.isEmpty then GLZ_findCol G X n nv L fuel (c + 1) NF'
      else .ok (NF', c, p.map (fun i => mget NF' i c), p)
    else .err .abort

/-- One pivot placement of `GLZ_Make_Trian_NF` at row `L`, column `c`:
combine the nonzero entries to their gcd `g` via `GL_W_to_GLZ`, update the
transform `G` accordingly, swap rows to bring the pivot to row `L`, and
reduce the entries above the pivot to their minimal nonnegative residues
(floor quotients). -/
def GLZ_pivot (n L : Nat) (G NF : Mat) (c : Nat) (W : List Int) (p : List Nat) :
    Mat × Mat :=
  let N := p.length
  let Gmg : Mat × Int := if N = 1 then ([[1]], lget W 0) else GL_W_to_GLZ W N
  let g := if Gmg.2 < 0 then -Gmg.2 else Gmg.2
  let Gm := if Gmg.2 < 0 then Gmg.1.set 0 ((mrow Gmg.1 0).map (fun x => -x)) else Gmg.1
  let NF1 := (List.range' (L + 1) (n - (L + 1))).foldl (fun M i => mset M i c 0)
    (mset NF L c g)
  let G1 := (List.range n).foldl (fun Ga i =>
    let Cp := p.map (fun r => mget Ga r i)
    (List.range N).foldl (fun Gb j =>
      mset Gb (nget p j) i ((List.range N).foldl
        (fun s k => s + mget Gm j k * lget Cp k) 0)) Ga) G
  let p0 := nget p 0
  let G2 := if L ≠ p0 then (G1.set L (mrow G1 p0)).set p0 (mrow G1 L) else G1
  (List.range L).foldl (fun (MG : Mat × Mat) i =>
    let piv := mget MG.1 L c
    let R0 := (mget MG.1 i c).tdiv piv
    let R := if mget MG.1 i c - R0 * piv < 0 then R0 - 1 else R0
    (mset MG.1 i c (mget MG.1 i c - R * piv),
     MG.2.set i ((List.range n).foldl
       (fun row j => row.set j (lget row j - R * mget MG.2 L j)) (mrow MG.2 i))))
    (NF1, G2)

/-- Main pivot loop of `GLZ_Make_Trian_NF` over rows `L = 0..n-1`,
threading the column cursor, the transform `G` and the working matrix. -/
def GLZ_loop (X : Mat) (n nv : Nat) :
    Nat → Nat → Nat → Mat → Mat → PRes (Nat × Mat × Mat)
  | 0, _, c, G, NF => .ok (c, G, NF)
  | fuel + 1, L, c, G, NF =>
    if L < n then do
      let (NF', c', W, p) ← GLZ_findCol G X n nv L (nv - c) c NF
      let r := GLZ_pivot n L G NF' c' W p
      GLZ_loop X n nv fuel (L + 1) (c' + 1) r.2 r.1
    else .ok (c, G, NF)

/-- Final materialization of the remaining columns
(`while(++C<*nv) NF[i][C] += G[i][j]*X[j][C]`). -/
def GLZ_tail (G X : Mat) (n nv : Nat) (c : Nat) (NF : Mat) : Mat :=
  (List.range' c (nv - c)).foldl (fun M col => matCol G X n M col) NF

/-- Final write-back with the `NFX_Limit` guard (`SHOW_NFX_LIMIT` is set in
the source): if some entry of the computed normal form exceeds the bound
in absolute value the routine fails recoverably (C `return 0`), otherwise
the normal form matrix is returned (C `return 1`). -/
def NFX_writeback (lim : Int) (n nv : Nat) (NF : Mat) : PRes Mat :=
  if (List.range n).all (fun i => (List.range nv).all
      (fun j => !(decide (lim < |mget NF i j|)))) then .ok NF
  else .err .limitExceeded

/-- C source `GLZ_Make_Trian_NF`: echelon normal form of the `n×nv` integer
matrix `X` under left multiplication by a unimodular transform `G`
accumulated from the identity; returns the normal form and `G`. -/
def GLZ_Make_Trian_NF (lim : Int) (X : Mat) (n nv : Nat) : PRes (Mat × Mat) := do
  let (c, G, NF) ← GLZ_loop X n nv n 0 0 (idMat n) (List.replicate n (List.replicate nv (0 : Int)))
  let NF2 := GLZ_tail G X n nv c NF
  let NFok ← NFX_writeback lim n nv NF2
  pure (NFok, G)

/-- C source `Aux_Make_Poly_NF` (with `TEST_GLZ_VS_SL` off): run
`GLZ_Make_Trian_NF` and discard the transform. -/
def Aux_Make_Poly_NF (lim : Int) (X : Mat) (n nv : Nat) : PRes Mat := do
  let r ← GLZ_Make_Trian_NF lim X n nv
  pure r.1

/-- One step of the inner combination loop of `SL2Z_Make_Poly_NF` at row
`i` of the current pivot column `c`: either an extended-Euclid combination
of rows `L` and `i` of the transform `S` (determinant `+1` by
construction), or — when the pivot entry is still zero — a plain swap of
rows `L` and `i`. -/
def SL_combine (n L c : Nat) (SNF : Mat × Mat) (i : Nat) : Mat × Mat :=
  let S := SNF.1
  let NF := SNF.2
  if mget NF i c ≠ 0 then
    if mget NF L c ≠ 0 then
      let x := mget NF L c
      let y := mget NF i c
      let r := GL_Egcd x y
      let g := r.1
      let a := r.2.1
      let b := r.2.2
      let S' := (List.range n).foldl (fun Sa j =>
        let A := a * mget Sa L j + b * mget Sa i j
        let Sa1 := mset Sa i j ((x.tdiv g) * mget Sa i j - (y.tdiv g) * mget Sa L j)
        mset Sa1 L j A) S
      (S', mset (mset NF L c g) i c 0)
    else
      ((S.set L (mrow S i)).set i (mrow S L),
       mset (mset NF L c (mget NF i c)) i c (mget NF L c))
  else (S, NF)

/-- The "make upper diag minimal nonneg." loop shared by both branches of
`SL2Z_Make_Poly_NF`: floor-reduce the entries above the pivot at row `L`,
column `c`, adjusting `S`. -/
def SL_reduceAbove (n L c : Nat) (SNF : Mat × Mat) : Mat × Mat :=
  (List.range L).foldl (fun (SNF : Mat × Mat) i =>
    let piv := mget SNF.2 L c
    let R0 := (mget SNF.2 i c).tdiv piv
    let R := if mget SNF.2 i c - R0 * piv < 0 then R0 - 1 else R0
    (SNF.1.set i ((List.range n).foldl
       (fun row j => row.set j (lget row j - R * mget SNF.1 L j)) (mrow SNF.1 i)),
     mset SNF.2 i c (mget SNF.2 i c - R * piv))) SNF

/-- Pivot-column search of `SL2Z_Make_Poly_NF` for pivot row `L`: per
column, materialize it, combine rows `L+1..n-1` into the pivot, fix the
pivot sign (negating row `L` of `S`), and on success floor-reduce the
entries above.  Out-of-columns is an out-of-bounds read in C, modelled as
abort. -/
def SL_findCol (X : Mat) (n nv L : Nat) :
    Nat → Nat → Mat → Mat → PRes (Mat × Mat × Nat)
  | 0, _, _, _ => .err .abort
  | fuel + 1, c, S, NF =>
    if c < nv then
      let NF1 := matCol S X n NF c
      let N := ((List.range' L (n - L)).filter (fun i => mget NF1 i c != 0)).length
      let SNF := (List.range' (L + 1) (n - (L + 1))).foldl (SL_combine n L c) (S, NF1)
      let S3NF3 : Mat × Mat := if mget SNF.2 L c < 0 then
          (SNF.1.set L ((mrow SNF.1 L).map (fun x => -x)),
           mset SNF.2 L c (-(mget SNF.2 L c)))
        else SNF
      if N = 0 then SL_findCol X n nv L fuel (c + 1) S3NF3.1 S3NF3.2
      else
        let r := SL_reduceAbove n L c S3NF3
        .ok (r.1, r.2, c)
    else .err .abort

/-- Main pivot loop of `SL2Z_Make_Poly_NF` over rows `L = 0..n-2` (the last
row is handled by the trailing-column loop). -/
def SL2Z_loop (X : Mat) (n nv : Nat) :
    Nat → Nat → Nat → Mat → Mat → PRes (Nat × Mat × Mat)
  | 0, _, c, S, NF => .ok (c, S, NF)
  | fuel + 1, L, c, S, NF =>
    if L + 1 < n then do
      let (S', NF', c') ← SL_findCol X n nv L (nv - c) c S NF
      SL2Z_loop X n nv fuel (L + 1) (c' + 1) S' NF'
    else .ok (c, S, NF)

/-- Trailing-column loop of `SL2Z_Make_Poly_NF`: materialize the remaining
columns; at the first one with a nonzero entry in row `L = n-1`, fix its
sign and floor-reduce the entries above, then clear `L`. -/
def SL2Z_tail (X : Mat) (n nv : Nat) (c0 Lf0 : Nat) (S NF : Mat) :
    Nat × Mat × Mat :=
  (List.range' c0 (nv - c0)).foldl (fun (st : Nat × Mat × Mat) c =>
    let Lf := st.1
    let NF1 := matCol st.2.1 X n st.2.2 c
    if Lf ≠ 0 ∧ mget NF1 Lf c ≠ 0 then
      let SN : Mat × Mat := if mget NF1 Lf c < 0 then
          (st.2.1.set Lf ((mrow st.2.1 Lf).map (fun x => -x)),
           mset NF1 (n - 1) c (-(mget NF1 (n - 1) c)))
        else (st.2.1, NF1)
      let r2 := SL_reduceAbove n Lf c SN
      (0, r2.1, r2.2)
    else (Lf, st.2.1, NF1)) (Lf0, S, NF)

/-- C source `SL2Z_Make_Poly_NF`: the older determinant-constrained variant
of the triangular normal form; returns the normal form and the transform
`S`. -/
def SL2Z_Make_Poly_NF (lim : Int) (X : Mat) (n nv : Nat) : PRes (Mat × Mat) := do
  let (c, S, NF) ← SL2Z_loop X n nv n 0 0 (idMat n)
    (List.replicate n (List.replicate nv (0 : Int)))
  let r := SL2Z_tail X n nv c (n - 1) S NF
  let NFok ← NFX_writeback lim n nv r.2.2
  pure (NFok, r.2.1)

/-- Modelled from the spec: "FacetEquation: a normal vector of `d` integers
plus a constant `c`" (struct `Equation` of Global.h, which is not under
src/). -/
structure Equation where
  a : List Int
  c : Int
deriving DecidableEq, Repr

/-- Modelled from the spec: "PolytopePointSet: an ordered sequence of
Points plus its ambient dimension `d`" (struct `PolyPointList` of
Global.h: point count `np`, dimension `n`, coordinates `x`). -/
structure PolyPointList where
  np : Nat
  n : Nat
  x : List (List Int)
deriving DecidableEq, Repr

/-- Modelled from the spec: "VertexIndexList: an ordered subset of point
indices marked as vertices" (struct `VertexNumList` of Global.h). -/
structure VertexNumList where
  nv : Nat
  v : List Nat
deriving DecidableEq, Repr

/-- Modelled from the spec: the ordered facet-equation list (struct
`EqList` of Global.h). -/
structure EqList where
  ne : Nat
  e : List Equation
deriving DecidableEq, Repr

/-- Default equation used for total list access. -/
def Eq0 : Equation := ⟨[], 0⟩

/-- Modelled from the spec: a Vertex Pairing Matrix entry is "the
evaluation of a facet equation on a vertex", the affine value
`Σ_j a_j·x_j + c` (function `Eval_Eq_on_V`, which is not under src/);
the spec's invariant "for every vertex ⟨normal, vertex⟩ ≥ 0 with equality
exactly for vertices on that facet" is the statement that this value is
nonnegative and vanishes exactly on incident vertices. -/
def Eval_Eq_on_V (E : Equation) (X : List Int) (n : Nat) : Int :=
  (List.range n).foldl (fun s j => s + lget E.a j * lget X j) 0 + E.c

/-- C source `Init_rVM_VPM`: build the vertex coordinate matrix `VM` (d×v)
and the vertex pairing matrix `VPM` (f×v), check them against
`X_Limit`/`VPM_Limit` (`TEST_rVM_VPM` calls `exit(0)` on violation,
modelled as abort), and return the reflexivity flag: whether every facet
equation has constant term 1. -/
def Init_rVM_VPM (Xlim VPMlim : Int) (P : PolyPointList) (V : VertexNumList)
    (F : EqList) : PRes (Nat × Nat × Nat × Mat × Mat × Bool) :=
  let d := P.n
  let v := V.nv
  let f := F.ne
  let ref := (List.range f).all (fun j => (F.e.getD j Eq0).c == 1)
  let VPM : Mat := (List.range f).map (fun j =>
    (List.range v).map (fun i => Eval_Eq_on_V (F.e.getD j Eq0) (mrow P.x (nget V.v i)) P.n))
  let VM : Mat := (List.range d).map (fun j =>
    (List.range v).map (fun i => lget (mrow P.x (nget V.v i)) j))
  if (List.range v).all (fun i =>
      (List.range d).all (fun j => !(decide (Xlim < |mget VM j i|))) &&
      (List.range f).all (fun j => !(decide (VPMlim < |mget VPM j i|)))) then
    .ok (d, v, f, VM, VPM, ref)
  else .err .abort

/-- The `PERM` record of Polynf.c: a column (vertex) permutation `C`, a
line (facet) permutation `L`, and the symmetry flag `s`. -/
structure PERM where
  C : List Nat
  L : List Nat
  s : Bool
deriving DecidableEq, Repr

/-- Default record used for total list access. -/
def PERM0 : PERM := ⟨[], [], false⟩

/-- Total getter for candidate lists. -/
def pget (CL : List PERM) (i : Nat) : PERM := CL.getD i PERM0

/-- C source `Aux_vNF_Init`: initialize the candidate list from the VPM
`x` (f×v): sort the columns to make line 0 non-increasing, then for every
other line keep it as an alternative first line if it sorts to a sequence
at least as large; returns the candidate list and the initial column
equivalence blocks `S` of the best first line. -/
def Aux_vNF_Init (nv nf : Nat) (x : Mat) : List PERM × List Nat :=
  let C0 := (List.range' 1 (nv - 1)).foldl (fun C j =>
    if lget (mrow x 0) (nget C 0) < lget (mrow x 0) (nget C j) then nswap C 0 j else C)
    (List.range nv)
  let C1 := (List.range' 1 (nv - 1)).foldl (fun C i =>
    (List.range' (i + 1) (nv - (i + 1))).foldl (fun C j =>
      if lget (mrow x 0) (nget C i) < lget (mrow x 0) (nget C j) then nswap C i j else C) C)
    C0
  let start : List PERM × Nat := ([⟨C1, List.range nf, false⟩], 0)
  let fin := (List.range' 1 (nf - 1)).foldl (fun (st : List PERM × Nat) nn =>
    let CL := st.1
    let b := st.2
    let y := mrow x nn
    let bC := (pget CL 0).C
    let m0 := (List.range' 1 (nv - 1)).foldl (fun m j =>
      if lget y (nget (List.range nv) m) < lget y (nget (List.range nv) j) then j else m) 0
    let Ca := if m0 ≠ 0 then nswap (List.range nv) 0 m0 else List.range nv
    let d0 := lget y (nget Ca 0) - lget (mrow x b) (nget bC 0)
    if d0 < 0 then st
    else
      let rl := (List.range' 1 (nv - 1)).foldl (fun (sb : List Nat × Int × Bool) i =>
        if sb.2.2 then sb
        else
          let C := sb.1
          let m := (List.range' (i + 1) (nv - (i + 1))).foldl (fun m j =>
            if lget y (nget C m) < lget y (nget C j) then j else m) i
          let C' := if m > i then nswap C i m else C
          if sb.2.1 = 0 then
            let d' := lget y (nget C' i) - lget (mrow x b) (nget bC i)
            (C', d', d' < 0)
          else (C', sb.2.1, false)) (Ca, d0, false)
      if rl.2.1 < 0 then st
      else
        let cand : PERM := ⟨rl.1, nswap (List.range nf) 0 nn, false⟩
        if rl.2.1 = 0 then (CL ++ [cand], b)
        else ([cand], nn)) start
  let CL := fin.1
  let yb := mrow x (nget (pget CL 0).L 0)
  let C := (pget CL 0).C
  let S := (List.range' 1 (nv - 1)).foldl (fun S i =>
    if lget yb (nget C i) = lget yb (nget C (i - 1)) then
      let t := nget S (i - 1)
      (S.set i t).set t (nget S t + 1)
    else S.set i i) (List.replicate nv 0)
  (CL, S)

/-- Working state of one candidate refinement in `Aux_vNF_Line`: the local
array `nP` (accepted refinements in slots `0..np-1`, scratch slot at
`np`), the reference line `r`, the compare flags `cf` (reference valid
across candidates) and `ccf` (column compare flag), and the candidate list
`CL` (which better-line discoveries truncate, `*_ns=n+1`). -/
structure LineSt where
  nps : List PERM
  np : Nat
  r : List Int
  cf : Bool
  ccf : Bool
  CL : List PERM
deriving Repr

/-- First inner loop of `Aux_vNF_Line` (`while(++L<_X->nf)`): try row
`L` of the candidate as line `l`, maximizing the leading column block,
and classify it as BAD / BETTER / EQUAL / NEW against the reference. -/
def vNF_line_first (l nv nf : Nat) (x : Mat) (S : List Nat) (n : Nat)
    (cand : PERM) (st0 : LineSt) : LineSt :=
  (List.range' l (nf - l)).foldl (fun st L =>
    let scr := pget st.nps st.np
    let y := mrow x (nget scr.L L)
    let C' := (List.range' 1 (nget S 0)).foldl (fun C j =>
      if lget y (nget C 0) < lget y (nget C j) then nswap C 0 j else C) scr.C
    let scr' : PERM := ⟨C', scr.L, scr.s⟩
    let nps1 := st.nps.set st.np scr'
    if st.ccf then
      let d := lget y (nget C' 0) - lget st.r 0
      if d < 0 then { st with nps := nps1 }
      else if d ≠ 0 then
        { nps := [⟨C', nswap scr'.L l L, scr'.s⟩, cand]
          np := 1
          r := st.r.set 0 (lget y (nget C' 0))
          cf := false
          ccf := st.ccf
          CL := st.CL.take (n + 1) }
      else
        { st with
          nps := (nps1.set st.np ⟨C', nswap scr'.L l L, scr'.s⟩) ++ [cand]
          np := st.np + 1 }
    else
      { st with
        nps := (nps1.set st.np ⟨C', nswap scr'.L l L, scr'.s⟩) ++ [cand]
        np := st.np + 1
        r := st.r.set 0 (lget y (nget C' 0))
        ccf := true })
    st0

/-- Second inner loop of `Aux_vNF_Line` (`while(++c<_X->nv)`): for each
remaining column, maximize it within its equivalence block for every
accepted refinement (iterated from the last accepted slot downwards) and
prune refinements that fall below the reference. -/
def vNF_line_cols (l nv : Nat) (x : Mat) (S : List Nat) (n : Nat)
    (st0 : LineSt) : LineSt :=
  (List.range' 1 (nv - 1)).foldl (fun st c =>
    let s0 := nget S c
    let s := if s0 < c then nget S s0 else s0
    let st1 := { st with ccf := st.cf }
    (List.range st1.np).reverse.foldl (fun st L =>
      let slot := pget st.nps L
      let y := mrow x (nget slot.L l)
      let C' := (List.range' (c + 1) (s - c)).foldl (fun C j =>
        if lget y (nget C c) < lget y (nget C j) then nswap C c j else C) slot.C
      let nps1 := st.nps.set L ⟨C', slot.L, slot.s⟩
      if st.ccf then
        let d := lget y (nget C' c) - lget st.r c
        if d < 0 then
          let np' := st.np - 1
          { st with
            nps := if np' > L then nps1.set L (pget nps1 np') else nps1
            np := np' }
        else if d ≠ 0 then
          { st with
            nps := nps1
            np := L + 1
            r := st.r.set c (lget y (nget C' c))
            cf := false
            CL := st.CL.take (n + 1) }
        else { st with nps := nps1 }
      else
        { st with
          nps := nps1
          r := st.r.set c (lget y (nget C' c))
          ccf := true })
      st1) st0

/-- Write-back of one candidate in `Aux_vNF_Line`: remove the consumed
candidate `n` (filling the hole with the last list entry), check the
`SYM_Nmax` candidate ceiling (`exit(0)`, modelled as abort), and append
the accepted refinements. -/
def vNF_line_wb (SYM_Nmax : Nat) (n : Nat) (st : LineSt) : PRes (List PERM) :=
  let ns0 := st.CL.length
  let CL1 := if ns0 - 1 > n then (st.CL.set n (pget st.CL (ns0 - 1))).take (ns0 - 1)
             else st.CL.take (ns0 - 1)
  if SYM_Nmax < CL1.length + st.np then .err .abort
  else .ok (CL1 ++ st.nps.take st.np)

/-- One candidate iteration of the `while(n--)` loop of `Aux_vNF_Line`. -/
def vNF_line_cand (SYM_Nmax l nv nf : Nat) (x : Mat) (S : List Nat) (n : Nat)
    (CL : List PERM) (cf : Bool) (r : List Int) : PRes (List PERM × Bool × List Int) :=
  let cand := pget CL n
  let st0 : LineSt := ⟨[cand], 0, r, cf, cf, CL⟩
  let st1 := vNF_line_first l nv nf x S n cand st0
  let st2 := vNF_line_cols l nv x S n st1
  match vNF_line_wb SYM_Nmax n st2 with
  | .err e => .err e
  | .ok CL' => .ok (CL', true, st2.r)

/-- Final block-refinement of the column equivalence classes `S` at the end
of `Aux_vNF_Line`, from the line chosen by the best candidate.  The outer
`while(c<_X->nv)` advances block by block; a fuel argument bounds the
recursion (the C loop always advances since block ends are at least their
leaders). -/
def vNF_line_S (nv : Nat) (y : List Int) (C : List Nat) :
    Nat → Nat → List Nat → List Nat
  | 0, _, S => S
  | fuel + 1, c, S =>
    if c < nv then
      let s := nget S c + 1
      let S1 := S.set c c
      let S2 := (List.range' (c + 1) (s - (c + 1))).foldl (fun S c' =>
        if lget y (nget C c') = lget y (nget C (c' - 1)) then
          let t := nget S (c' - 1)
          (S.set c' t).set t (nget S t + 1)
        else S.set c' c') S1
      vNF_line_S nv y C fuel s S2
    else S

/-- C source `Aux_vNF_Line`: refine every retained candidate by choosing
line `l` of the normal form (maximal within the current column blocks),
keeping ties, dropping worse candidates and restarting the list on better
ones; aborts (`exit(0)`) when the retained count would exceed
`SYM_Nmax`.  Returns the new candidate list and refined blocks `S`. -/
def Aux_vNF_Line (SYM_Nmax l nv nf : Nat) (x : Mat) (CL : List PERM)
    (S : List Nat) : PRes (List PERM × List Nat) :=
  let res := ((List.range CL.length).reverse).foldl (fun acc n =>
    match acc with
    | .err e => .err e
    | .ok (CLa, cf, r) => vNF_line_cand SYM_Nmax l nv nf x S n CLa cf r)
    (PRes.ok (CL, false, List.replicate nv 0))
  match res with
  | .err e => .err e
  | .ok (CLf, _, _) =>
    let CL0 := pget CLf 0
    .ok (CLf, vNF_line_S nv (mrow x (nget CL0.L l)) CL0.C nv 0 S)

/-- C source `Make_VPM_NF`: canonicalize the VPM `x` (f×v) under row and
column permutations: initialize the candidates from the first line, then
refine through lines `1..f-2` (the last line is implicit); returns the
candidate list and the canonical VPM read off through the best
candidate. -/
def Make_VPM_NF (SYM_Nmax v f : Nat) (x : Mat) : PRes (List PERM × Mat) :=
  let init := Aux_vNF_Init v f x
  let res := (List.range' 1 (f - 2)).foldl (fun acc i =>
    match acc with
    | .err e => .err e
    | .ok (CL, S) => Aux_vNF_Line SYM_Nmax i v f x CL S)
    (PRes.ok init)
  match res with
  | .err e => .err e
  | .ok (CL, _) =>
    let CL0 := pget CL 0
    .ok (CL, (List.range f).map (fun j =>
      (List.range v).map (fun i => mget x (nget CL0.L j) (nget CL0.C i))))

/-- C source `New_pNF_Order`: stable re-ordering of the vertex indices by
(column maximum, then column sum) of the canonical VPM, ascending, applied
to the column permutation of every candidate. -/
def New_pNF_Order (v f : Nat) (CL : List PERM) (VPM_NF : Mat) : List PERM :=
  let maxP0 := (List.range v).map (fun i =>
    (List.range f).foldl (fun m j => if mget VPM_NF j i > m then mget VPM_NF j i else m) 0)
  let sumP0 := (List.range v).map (fun i =>
    (List.range f).foldl (fun s j => s + mget VPM_NF j i) 0)
  let sorted := (List.range (v - 1)).foldl (fun (st : List Int × List Int × List Nat) i =>
    let maxP := st.1
    let sumP := st.2.1
    let pi := st.2.2
    let m := (List.range' (i + 1) (v - (i + 1))).foldl (fun m j =>
      if lget maxP j < lget maxP m then j
      else if lget maxP j = lget maxP m ∧ lget sumP j < lget sumP m then j
      else m) i
    if m ≠ i then (iswap maxP i m, iswap sumP i m, nswap pi i m)
    else (maxP, sumP, pi)) (maxP0, sumP0, List.range v)
  let pi := sorted.2.2
  CL.map (fun P => ⟨(List.range v).map (fun j => nget P.C (nget pi j)), P.L, P.s⟩)

/-- C source `Aux_XltY_Poly_NF`: row-major lexicographic comparison of two
`n×nv` signed integer matrices, the first differing entry decides. -/
def Aux_XltY_Poly_NF (X Y : Mat) (n nv : Nat) : Bool :=
  match (List.range n).findSome? (fun i => (List.range nv).findSome? (fun j =>
    let d := mget X i j - mget Y i j
    if d < 0 then some true else if d ≠ 0 then some false else none)) with
  | some b => b
  | none => false

/-- Build the vertex coordinate matrix of a candidate: columns of `V`
rearranged by the candidate's column permutation (C
`X[i][j]=V[i][CL[s].C[j]]`). -/
def permuteCols (V : Mat) (C : List Nat) (n nv : Nat) : Mat :=
  (List.range n).map (fun i => (List.range nv).map (fun j => mget V i (nget C j)))

/-- One iteration of the candidate loop of `Aux_Make_Triang` (`for(s=1;
s<ns;s++)`), on the state (current best matrix, candidate list, index `g`
of the last strict improvement, counter `t`): reduce candidate `s`,
compare with the current best, and update best, symmetry flags and
counter. -/
def AMT_step (lim : Int) (V : Mat) (n nv : Nat)
    (acc : PRes (Mat × List PERM × Nat × Int)) (s : Nat) :
    PRes (Mat × List PERM × Nat × Int) :=
  match acc with
  | .err e => .err e
  | .ok (best, CLa, g, ta) =>
    match Aux_Make_Poly_NF lim (permuteCols V (pget CLa s).C n nv) n nv with
    | .err _ => .err .abort
    | .ok Y =>
      if Aux_XltY_Poly_NF Y best n nv then
        if ta ≠ 0 then
          let CLb := if ta < 0 then
              ((List.range' g (s - g)).foldl (fun CLc k =>
                CLc.set k ⟨(pget CLc k).C, (pget CLc k).L, false⟩) CLa).set s
                ⟨(pget CLa s).C, (pget CLa s).L, true⟩
            else CLa
          .ok (Y, CLb, s, if ta < 0 then -1 else ta)
        else .ok (Y, CLa, g, ta)
      else if !(Aux_XltY_Poly_NF best Y n nv) then
        if ta < 0 then .ok (best, CLa.set s ⟨(pget CLa s).C, (pget CLa s).L, true⟩, g, ta - 1)
        else .ok (best, CLa, g, ta)
      else .ok (best, CLa, g, ta)

/-- C source `Aux_Make_Triang`: reduce the coordinate matrix of every
candidate with `Aux_Make_Poly_NF` (a reduction failure is `exit(0)`,
modelled as abort), keep the row-major lexicographically smallest result,
and for trace mode `t = -1` maintain the symmetry flags `s` on the
candidates achieving the minimum and the count `t` (negated).  Returns the
minimal matrix, the flagged candidate list, and the final `t`. -/
def Aux_Make_Triang (lim : Int) (CL : List PERM) (V : Mat) (n nv : Nat)
    (t : Int) : PRes (Mat × List PERM × Int) :=
  if t < 0 ∧ t + 1 ≠ 0 then .err .abort
  else
    match Aux_Make_Poly_NF lim (permuteCols V (pget CL 0).C n nv) n nv with
    | .err _ => .err .abort
    | .ok X0 =>
      let CL1 := if t < 0 then CL.set 0 ⟨(pget CL 0).C, (pget CL 0).L, true⟩ else CL
      let CL2 := (List.range' 1 (CL1.length - 1)).foldl (fun CLa s =>
        CLa.set s ⟨(pget CLa s).C, (pget CLa s).L, false⟩) CL1
      let res := (List.range' 1 (CL2.length - 1)).foldl (AMT_step lim V n nv)
        (PRes.ok (X0, CL2, 0, t))
      match res with
      | .err e => .err e
      | .ok (best, CLf, _, tf) => .ok (best, CLf, tf)

/-- C source `Eval_Poly_NF`: canonicalize the VPM, re-order, and select the
polytope normal form (trace off, `t = 0` as called from `Make_Poly_NF`). -/
def Eval_Poly_NF (lim : Int) (SYM_Nmax d v f : Nat) (VM VPM : Mat) :
    PRes Mat :=
  match Make_VPM_NF SYM_Nmax v f VPM with
  | .err e => .err e
  | .ok (CL, VPM_NF) =>
    let CL2 := New_pNF_Order v f CL VPM_NF
    match Aux_Make_Triang lim CL2 VM d v 0 with
    | .err e => .err e
    | .ok (pNF, _, _) => .ok pNF

/-- C source `Make_Poly_NF`: full pipeline from the polytope data; returns
the reflexivity flag (the C return value, 1 iff every facet equation has
constant 1) together with the normal form matrix. -/
def Make_Poly_NF (lim Xlim VPMlim : Int) (SYM_Nmax : Nat) (P : PolyPointList)
    (V : VertexNumList) (F : EqList) : PRes (Bool × Mat) :=
  match Init_rVM_VPM Xlim VPMlim P V F with
  | .err e => .err e
  | .ok (d, v, f, VM, VPM, ref) =>
    match Eval_Poly_NF lim SYM_Nmax d v f VM VPM with
    | .err e => .err e
    | .ok pNF => .ok (ref, pNF)

/-- C source `Make_Poly_Sym_NF` (untraced): like `Make_Poly_NF` but in
symmetry-count mode `t = -1`; returns `(ns, SymNum, NF)` where `ns` is the
number of VPM automorphism candidates and `SymNum = -t` the number of true
polytope symmetries; the internal consistency check `t != *SymNum`
(`exit(0)`) is modelled as abort. -/
def Make_Poly_Sym_NF (lim Xlim VPMlim : Int) (SYM_Nmax : Nat)
    (P : PolyPointList) (V : VertexNumList) (F : EqList) :
    PRes (Nat × Nat × Mat) :=
  match Init_rVM_VPM Xlim VPMlim P V F with
  | .err e => .err e
  | .ok (d, v, f, VM, VPM, _) =>
    match Make_VPM_NF SYM_Nmax v f VPM with
    | .err e => .err e
    | .ok (CL, VPM_NF) =>
      let CL2 := New_pNF_Order v f CL VPM_NF
      match Aux_Make_Triang lim CL2 VM d v (-1) with
      | .err e => .err e
      | .ok (NF, CLf, tf) =>
        let SymNum := (-tf).toNat
        if (CLf.filter (fun P => P.s)).length ≠ SymNum then .err .abort
        else .ok (CL2.length, SymNum, NF)

/-- State-mirroring wrapper for `Make_Poly_NF`: the C function reads the
caller's `PolyPointList`, `VertexNumList` and `EqList` only (its `d,v,f`
are locals), so the caller-visible state is returned unchanged next to the
result. -/
def Make_Poly_NF_state (lim Xlim VPMlim : Int) (SYM_Nmax : Nat)
    (P : PolyPointList) (V : VertexNumList) (F : EqList) :
    (PolyPointList × VertexNumList × EqList) × PRes (Bool × Mat) :=
  ((P, V, F), Make_Poly_NF lim Xlim VPMlim SYM_Nmax P V F)

/-- State-mirroring wrapper for `Make_Poly_Sym_NF`: here the C function
aliases `d = &P->n`, `v = &V->nv`, `f = &F->ne` into `Init_rVM_VPM`, whose
only writes through them are the self-assignments `*v=_V->nv; *f=_F->ne;
*d=_P->n`; these are mirrored literally. -/
def Make_Poly_Sym_NF_state (lim Xlim VPMlim : Int) (SYM_Nmax : Nat)
    (P : PolyPointList) (V : VertexNumList) (F : EqList) :
    (PolyPointList × VertexNumList × EqList) × PRes (Nat × Nat × Mat) :=
  let V' : VertexNumList := ⟨V.nv, V.v⟩
  let F' : EqList := ⟨F.ne, F.e⟩
  let P' : PolyPointList := ⟨P.np, P.n, P.x⟩
  ((P', V', F'), Make_Poly_Sym_NF lim Xlim VPMlim SYM_Nmax P V F)

/-- Laplace expansion along the first row, with fuel (first argument) equal
to the number of rows; used to state unimodularity of the accumulated
transforms. -/
def detLF : Nat → Mat → Int
  | 0, _ => 1
  | _ + 1, [] => 1
  | fuel + 1, r :: rest =>
    (List.range (rest.length + 1)).foldl (fun acc j =>
      acc + (-1 : Int) ^ j * lget r j * detLF fuel (rest.map (fun row => row.eraseIdx j))) 0

/-- Determinant of a square integer matrix given as a list of rows. -/
def detL (M : Mat) : Int := detLF M.length M

/-- The reduction applied to one candidate inside `Aux_Make_Triang`:
`Aux_Make_Poly_NF` of the coordinate matrix rearranged by the candidate's
column permutation. -/
def reduceOf (lim : Int) (V : Mat) (n nv : Nat) (P : PERM) : PRes Mat :=
  Aux_Make_Poly_NF lim (permuteCols V P.C n nv) n nv

/-- Extract the value of a successful result (junk on error); used to state
properties of runs whose success is a hypothesis. -/
def getOk : PRes Mat → Mat
  | .ok M => M
  | .err _ => []

/-- The square diamond scenario of the spec: `d = 2`, vertices
`(1,0), (0,1), (-1,0), (0,-1)`. -/
def diamondP : PolyPointList := ⟨4, 2, [[1, 0], [0, 1], [-1, 0], [0, -1]]⟩

/-- Vertex index list of the square diamond (identity ordering). -/
def diamondV : VertexNumList := ⟨4, [0, 1, 2, 3]⟩

/-- The four facet equations of the square diamond (`±x ± y ≤ 1`, each with
constant 1). -/
def diamondF : EqList :=
  ⟨4, [⟨[-1, -1], 1⟩, ⟨[1, -1], 1⟩, ⟨[1, 1], 1⟩, ⟨[-1, 1], 1⟩]⟩

/-- Apply a `2×2` integer matrix to every point of a point list. -/
def rotP (R : Mat) (P : PolyPointList) : PolyPointList :=
  ⟨P.np, P.n, P.x.map (fun p =>
    [mget R 0 0 * lget p 0 + mget R 0 1 * lget p 1,
     mget R 1 0 * lget p 0 + mget R 1 1 * lget p 1])⟩

/-- Transform every facet normal by the given `2×2` matrix on the right
(the inverse of the point transform, so facet values are preserved). -/
def rotF (Ri : Mat) (F : EqList) : EqList :=
  ⟨F.ne, F.e.map (fun e =>
    ⟨[lget e.a 0 * mget Ri 0 0 + lget e.a 1 * mget Ri 1 0,
      lget e.a 0 * mget Ri 0 1 + lget e.a 1 * mget Ri 1 1], e.c⟩)⟩

/-- The four unimodular rotations of the plane lattice (rotations by
multiples of 90°), each paired with its inverse. -/
def diamondRots : List (Mat × Mat) :=
  [([[1, 0], [0, 1]], [[1, 0], [0, 1]]),
   ([[0, -1], [1, 0]], [[0, 1], [-1, 0]]),
   ([[-1, 0], [0, -1]], [[-1, 0], [0, -1]]),
   ([[0, 1], [-1, 0]], [[0, -1], [1, 0]])]

/-- One diamond-scenario run: `Make_Poly_Sym_NF` on the rotated diamond
with the vertex index list in the given order, keeping the symmetry count
and normal form (the candidate count is dropped). -/
def diamondRun (σ : List Nat) (R Ri : Mat) : Option (Nat × Mat) :=
  match Make_Poly_Sym_NF 903 9999 9999 1000 (rotP R diamondP) ⟨4, σ⟩ (rotF Ri diamondF) with
  | .ok (_, sym, nf) => some (sym, nf)
  | .err _ => none

/-- The normal form of the square diamond. -/
def diamondNF : Mat := [[1, 0, 0, -1], [0, 1, -1, 0]]

/-- Entry-level three-way comparison underlying `Aux_XltY_Poly_NF`:
`some true` for strictly smaller, `some false` for strictly larger,
`none` for equal. -/
def entryCmp (X Y : Mat) (i j : Nat) : Option Bool :=
  let d := mget X i j - mget Y i j
  if d < 0 then some true else if d ≠ 0 then some false else none

/-- Row-level comparison. -/
def rowCmp (X Y : Mat) (nv i : Nat) : Option Bool :=
  (List.range nv).findSome? (fun j => entryCmp X Y i j)

/-- Exact shape of a working matrix: `n` rows of length `nv`. -/
def Shaped (M : Mat) (n nv : Nat) : Prop :=
  M.length = n ∧ ∀ r ∈ M, r.length = nv

/-- Invariant of the candidate loop of `Aux_Make_Triang` in trace mode
after the candidates `0..s` have been processed: every processed reduction
succeeded, the running best is one of the reduced matrices and none of
them is lexicographically smaller, the candidate permutation data is
intact, the flags mark exactly the processed minimisers, `g` is the first
minimiser, and the counter stays negative. -/
def AMTInv (lim : Int) (V : Mat) (n nv : Nat) (CL : List PERM) (s : Nat)
    (best : Mat) (CLa : List PERM) (g : Nat) (ta : Int) : Prop :=
  (∀ k, k ≤ s → ∃ M, reduceOf lim V n nv (pget CL k) = PRes.ok M) ∧
  (∃ k, k ≤ s ∧ reduceOf lim V n nv (pget CL k) = PRes.ok best) ∧
  (∀ k, k ≤ s →
    Aux_XltY_Poly_NF (getOk (reduceOf lim V n nv (pget CL k))) best n nv = false) ∧
  CLa.length = CL.length ∧
  (∀ k, (pget CLa k).C = (pget CL k).C ∧ (pget CLa k).L = (pget CL k).L) ∧
  (∀ k, k < CL.length → ((pget CLa k).s = true ↔
    (k ≤ s ∧ reduceOf lim V n nv (pget CL k) = PRes.ok best))) ∧
  (g ≤ s ∧ reduceOf lim V n nv (pget CL g) = PRes.ok best ∧
    ∀ k, k < g → reduceOf lim V n nv (pget CL k) ≠ PRes.ok best) ∧
  ta < 0

/-
  =====================  theorems  =====================
-/

/-- Truncated remainder negates with its dividend. -/
lemma neg_tmod_eq (a b : Int) : (-a).tmod b = -(a.tmod b) := by
  have h1 := Int.tdiv_add_tmod a b
  have h2 := Int.tdiv_add_tmod (-a) b
  have h3 : (-a).tdiv b = -(a.tdiv b) := Int.neg_tdiv a b
  rw [h3] at h2
  linarith

/-- A truncated quotient on `[b, 2b)` is 1. -/
lemma tdiv_pin_one (a b : Int) (hb : 0 < b) (h1 : b ≤ a) (h2 : a < 2 * b) :
    a.tdiv b = 1 := by
  have h0 : (0:Int) ≤ a := by omega
  have hm : 0 ≤ a.tmod b := Int.tmod_nonneg b h0
  have hlt : a.tmod b < b := Int.tmod_lt_of_pos a hb
  have hid : b * a.tdiv b + a.tmod b = a := Int.tdiv_add_tmod a b
  rcases lt_trichotomy (a.tdiv b) 1 with h | h | h
  · exfalso
    have hq : a.tdiv b ≤ 0 := by omega
    have hle : b * a.tdiv b ≤ b * 0 := mul_le_mul_of_nonneg_left hq hb.le
    simp only [mul_zero] at hle
    linarith
  · exact h
  · exfalso
    have h2' : (2:Int) ≤ a.tdiv b := by omega
    have hle : b * 2 ≤ b * a.tdiv b := mul_le_mul_of_nonneg_left h2' hb.le
    linarith

/-- The rounding property of `GL_RoundQ` for positive divisors: the result
is a nearest quotient, and exact halves round away from zero. -/
lemma GL_RoundQ_spec_pos (N D : Int) (hD : 0 < D) :
    2 * |N - GL_RoundQ N D * D| ≤ |D| ∧
    (2 * |N - GL_RoundQ N D * D| = |D| → |N| ≤ |GL_RoundQ N D * D|) := by
  have hQ : GL_RoundQ N D = N.tdiv D + (2 * (N - N.tdiv D * D)).tdiv D := by
    simp [GL_RoundQ, if_neg (not_lt.mpr hD.le)]
  have hid : D * N.tdiv D + N.tmod D = N := Int.tdiv_add_tmod N D
  have hrval : N - N.tdiv D * D = N.tmod D := by linarith [mul_comm D (N.tdiv D)]
  have habsD : |D| = D := abs_of_pos hD
  rcases le_or_lt 0 N with hN | hN
  · have hr0 : 0 ≤ N.tmod D := Int.tmod_nonneg D hN
    have hrlt : N.tmod D < D := Int.tmod_lt_of_pos N hD
    rcases lt_or_le (2 * N.tmod D) D with hsmall | hbig
    · have hq2 : (2 * (N - N.tdiv D * D)).tdiv D = 0 := by
        rw [hrval]
        exact Int.tdiv_eq_zero_of_lt (by omega) hsmall
      have hQv : GL_RoundQ N D = N.tdiv D := by rw [hQ, hq2, add_zero]
      have hdiff : N - GL_RoundQ N D * D = N.tmod D := by rw [hQv]; exact hrval
      rw [hdiff, habsD, abs_of_nonneg hr0]
      constructor
      · omega
      · intro ht
        omega
    · have hq2 : (2 * (N - N.tdiv D * D)).tdiv D = 1 := by
        rw [hrval]
        exact tdiv_pin_one _ _ hD hbig (by omega)
      have hQv : GL_RoundQ N D = N.tdiv D + 1 := by rw [hQ, hq2]
      have hdiff : N - GL_RoundQ N D * D = N.tmod D - D := by
        rw [hQv]
        have : (N.tdiv D + 1) * D = N.tdiv D * D + D := by ring
        rw [this]
        omega
      have hQD : GL_RoundQ N D * D = N + (D - N.tmod D) := by omega
      rw [hdiff, habsD, abs_of_nonpos (by omega)]
      constructor
      · omega
      · intro ht
        rw [hQD, abs_of_nonneg hN, abs_of_nonneg (by omega)]
        omega
  · have hneg : N.tmod D = -((-N).tmod D) := by
      have h2 := neg_tmod_eq (-N) D
      simp only [neg_neg] at h2
      omega
    have hr0 : N.tmod D ≤ 0 := by
      have := Int.tmod_nonneg D (by omega : (0:Int) ≤ -N)
      omega
    have hrgt : -D < N.tmod D := by
      have := Int.tmod_lt_of_pos (-N) hD
      omega
    rcases lt_or_le (-D) (2 * N.tmod D) with hsmall | hbig
    · have hq2 : (2 * (N - N.tdiv D * D)).tdiv D = 0 := by
        rw [hrval]
        have hu : (-(2 * N.tmod D)).tdiv D = 0 :=
          Int.tdiv_eq_zero_of_lt (by omega) (by omega)
        have := Int.neg_tdiv (-(2 * N.tmod D)) D
        simp only [neg_neg] at this
        omega
      have hQv : GL_RoundQ N D = N.tdiv D := by rw [hQ, hq2, add_zero]
      have hdiff : N - GL_RoundQ N D * D = N.tmod D := by rw [hQv]; exact hrval
      rw [hdiff, habsD, abs_of_nonpos hr0]
      constructor
      · omega
      · intro ht
        omega
    · have hq2 : (2 * (N - N.tdiv D * D)).tdiv D = -1 := by
        rw [hrval]
        have hu : (-(2 * N.tmod D)).tdiv D = 1 :=
          tdiv_pin_one _ _ hD (by omega) (by omega)
        have := Int.neg_tdiv (-(2 * N.tmod D)) D
        simp only [neg_neg] at this
        omega
      have hQv : GL_RoundQ N D = N.tdiv D - 1 := by rw [hQ, hq2]; ring
      have hdiff : N - GL_RoundQ N D * D = N.tmod D + D := by
        rw [hQv]
        have : (N.tdiv D - 1) * D = N.tdiv D * D - D := by ring
        rw [this]
        omega
      have hQD : GL_RoundQ N D * D = N - (N.tmod D + D) := by omega
      rw [hdiff, habsD, abs_of_nonneg (by omega)]
      constructor
      · omega
      · intro ht
        rw [hQD, abs_of_nonpos hN.le, abs_of_nonpos (by omega)]
        omega

/-- C5 counterexample: at `N = 1, D = 2` the exact ratio `1/2` lies exactly
halfway between the two nearest integers 0 and 1 (both witness
`2·|N − Q·D| = |D|`), so the claim ("ties broken toward the lower value")
demands the result 0; `GL_RoundQ 1 2` is 1. -/
theorem GL_RoundQ_counterexample :
    2 * |(1:Int) - 0 * 2| = |(2:Int)| ∧ 2 * |(1:Int) - 1 * 2| = |(2:Int)| ∧
    GL_RoundQ 1 2 = 1 ∧ GL_RoundQ 1 2 ≠ 0 := by
  decide

/-- C5 (amended): for every `N` and nonzero `D`, `GL_RoundQ N D` is an
integer quotient closest to the exact ratio `N/D` (twice the absolute
remainder is at most `|D|`), and when `N/D` lies exactly halfway between
two consecutive integers the tie is broken away from zero
(`|N| ≤ |Q·D|`), not toward the lower value. -/
theorem GL_RoundQ_round_nearest (N D : Int) (hD : D ≠ 0) :
    2 * |N - GL_RoundQ N D * D| ≤ |D| ∧
    (2 * |N - GL_RoundQ N D * D| = |D| → |N| ≤ |GL_RoundQ N D * D|) := by
  rcases lt_or_gt_of_ne hD with hDneg | hDpos
  · have hflip : GL_RoundQ N D = GL_RoundQ (-N) (-D) := by
      simp only [GL_RoundQ, if_pos hDneg, if_neg (by omega : ¬ (-D:Int) < 0)]
    obtain ⟨h1, h2⟩ := GL_RoundQ_spec_pos (-N) (-D) (by omega)
    have e1 : -N - GL_RoundQ (-N) (-D) * -D = -(N - GL_RoundQ (-N) (-D) * D) := by
      ring
    have e2 : GL_RoundQ (-N) (-D) * -D = -(GL_RoundQ (-N) (-D) * D) := by ring
    rw [e1, abs_neg, abs_neg] at h1
    rw [e1, abs_neg, abs_neg, abs_neg, e2, abs_neg] at h2
    rw [hflip]
    exact ⟨h1, h2⟩
  · exact GL_RoundQ_spec_pos N D hDpos

/-- C5 witness: the amended rounding property at `N = 7, D = 3`. -/
theorem GL_RoundQ_round_nearest_witness :
    (3:Int) ≠ 0 ∧
    (2 * |7 - GL_RoundQ 7 3 * 3| ≤ |(3:Int)| ∧
     (2 * |7 - GL_RoundQ 7 3 * 3| = |(3:Int)| → |(7:Int)| ≤ |GL_RoundQ 7 3 * 3|)) :=
  ⟨by decide, GL_RoundQ_round_nearest 7 3 (by decide)⟩

/-- C3 (code evaluation at the failing input): on the full-rank input
`X = [[0,1],[1,0]]` (`n = nv = 2`) the routine `SL2Z_Make_Poly_NF`
succeeds (`return 1`) and its accumulated transform `S` is the plain row
swap, of determinant −1: the zero-pivot branch swaps two rows of `S`
without the compensating negation, so the determinant +1 contract of the
constrained variant is violated by the code. -/
theorem SL2Z_swap_det_neg_one :
    SL2Z_Make_Poly_NF 903 [[0, 1], [1, 0]] 2 2 =
      .ok ([[1, 0], [0, 1]], [[0, 1], [1, 0]]) ∧
    detL [[0, 1], [1, 0]] = -1 :=
  ⟨rfl, by decide⟩

/-- C9: `Make_Poly_NF` and `Make_Poly_Sym_NF` leave the caller-supplied
`PolyPointList`, `VertexNumList` and `EqList` unchanged: the caller state
returned by the mirroring wrappers (which replay the only writes the C
code performs through the caller's pointers, the self-assignments of
`Init_rVM_VPM` under the aliasing in `Make_Poly_Sym_NF`) equals the input
state, whatever the outcome of the computation. -/
theorem Make_Poly_NF_frame (lim Xlim VPMlim : Int) (SYM_Nmax : Nat)
    (P : PolyPointList) (V : VertexNumList) (F : EqList) :
    (Make_Poly_NF_state lim Xlim VPMlim SYM_Nmax P V F).1 = (P, V, F) ∧
    (Make_Poly_Sym_NF_state lim Xlim VPMlim SYM_Nmax P V F).1 = (P, V, F) :=
  ⟨rfl, rfl⟩

/-- C10: whenever `Make_Poly_NF` returns, its flag is 1 exactly when every
facet equation of the supplied `EqList` has constant term 1; the flag is
computed by `Init_rVM_VPM` from `F` alone, independently of the
normal-form computation. -/
theorem Make_Poly_NF_reflexive_flag (lim Xlim VPMlim : Int) (SYM_Nmax : Nat)
    (P : PolyPointList) (V : VertexNumList) (F : EqList) (r : Bool) (M : Mat)
    (h : Make_Poly_NF lim Xlim VPMlim SYM_Nmax P V F = .ok (r, M)) :
    r = true ↔ ∀ j < F.ne, (F.e.getD j Eq0).c = 1 := by
  have hr : r = (List.range F.ne).all (fun j => (F.e.getD j Eq0).c == 1) := by
    simp only [Make_Poly_NF] at h
    split at h
    · cases h
    · rename_i d v f VM VPM ref heq
      simp only [Init_rVM_VPM] at heq
      split at heq
      · cases heq
        split at h
        · cases h
        · cases h
          rfl
      · cases heq
  subst hr
  simp [List.all_eq_true, List.mem_range, beq_iff_eq]

/-- C10 witness: the flag theorem instantiated on the square diamond (all
four facet constants are 1, the pipeline succeeds with flag `true`). -/
theorem Make_Poly_NF_reflexive_flag_witness :
    Make_Poly_NF 903 9999 9999 1000 diamondP diamondV diamondF =
      .ok (true, diamondNF) ∧
    (true = true ↔ ∀ j < diamondF.ne, (diamondF.e.getD j Eq0).c = 1) := by
  have h : Make_Poly_NF 903 9999 9999 1000 diamondP diamondV diamondF =
      .ok (true, diamondNF) := by rfl
  exact ⟨h, Make_Poly_NF_reflexive_flag 903 9999 9999 1000
    diamondP diamondV diamondF true diamondNF h⟩

/-- Unfolding of the monadic bind of `PRes`. -/
lemma PRes_bind_def {α β : Type} (x : PRes α) (f : α → PRes β) :
    x >>= f = PRes.bind x f := rfl

/-- Inversion of a successful bind. -/
lemma PRes_bind_ok {α β : Type} (x : PRes α) (f : α → PRes β) (b : β)
    (h : PRes.bind x f = .ok b) : ∃ a, x = .ok a ∧ f a = .ok b := by
  cases x with
  | ok a => exact ⟨a, rfl, h⟩
  | err e => exact PRes.noConfusion h

/-- A successful write-back bounds every entry by the configured limit. -/
lemma NFX_writeback_ok (lim : Int) (n nv : Nat) (NF M : Mat)
    (h : NFX_writeback lim n nv NF = .ok M) :
    M = NF ∧ ∀ i < n, ∀ j < nv, |mget NF i j| ≤ lim := by
  simp only [NFX_writeback] at h
  split at h
  · cases h
    rename_i hall
    refine ⟨rfl, ?_⟩
    intro i hi j hj
    simp only [List.all_eq_true, List.mem_range] at hall
    have := hall i hi j hj
    simp only [Bool.not_eq_eq_eq_not, Bool.not_true, decide_eq_false_iff_not,
      not_lt] at this
    exact this
  · cases h

/-- C7: the `NFX_Limit` guard.  (a) If `GLZ_Make_Trian_NF` succeeds, every
entry of the returned normal form is at most the bound in absolute value;
(b) likewise for `SL2Z_Make_Poly_NF`; (c) if some entry of the computed
normal form exceeds the bound, the final write-back fails with the
recoverable `limitExceeded` (C `return 0`), never delivering an
out-of-range value. -/
theorem NFX_limit_guard :
    (∀ (lim : Int) (X : Mat) (n nv : Nat) (M G : Mat),
      GLZ_Make_Trian_NF lim X n nv = .ok (M, G) →
      ∀ i < n, ∀ j < nv, |mget M i j| ≤ lim) ∧
    (∀ (lim : Int) (X : Mat) (n nv : Nat) (M S : Mat),
      SL2Z_Make_Poly_NF lim X n nv = .ok (M, S) →
      ∀ i < n, ∀ j < nv, |mget M i j| ≤ lim) ∧
    (∀ (lim : Int) (n nv : Nat) (NF : Mat),
      (∃ i < n, ∃ j < nv, lim < |mget NF i j|) →
      NFX_writeback lim n nv NF = .err .limitExceeded) := by
  refine ⟨?_, ?_, ?_⟩
  · intro lim X n nv M G h
    simp only [GLZ_Make_Trian_NF, bind, PRes_bind_def] at h
    obtain ⟨a, _, h2⟩ := PRes_bind_ok _ _ _ h
    obtain ⟨M', hwb, h3⟩ := PRes_bind_ok _ _ _ h2
    cases h3
    obtain ⟨hM, hbound⟩ := NFX_writeback_ok _ _ _ _ _ hwb
    subst hM
    exact hbound
  · intro lim X n nv M S h
    simp only [SL2Z_Make_Poly_NF, bind, PRes_bind_def] at h
    obtain ⟨a, _, h2⟩ := PRes_bind_ok _ _ _ h
    obtain ⟨M', hwb, h3⟩ := PRes_bind_ok _ _ _ h2
    cases h3
    obtain ⟨hM, hbound⟩ := NFX_writeback_ok _ _ _ _ _ hwb
    subst hM
    exact hbound
  · intro lim n nv NF hx
    simp only [NFX_writeback]
    split
    · rename_i hall
      exfalso
      obtain ⟨i, hi, j, hj, hgt⟩ := hx
      simp only [List.all_eq_true, List.mem_range] at hall
      have := hall i hi j hj
      simp only [Bool.not_eq_eq_eq_not, Bool.not_true, decide_eq_false_iff_not,
        not_lt] at this
      omega
    · rfl

/-- C7 witness: GLZ and SL2Z runs on a concrete full-rank `2×3` input stay
within the bound 903, and a `1×1` working matrix with entry 2 fails the
write-back at bound 1 with `limitExceeded`. -/
theorem NFX_limit_guard_witness :
    (GLZ_Make_Trian_NF 903 [[2, 4, 6], [3, 5, 7]] 2 3 =
        .ok ([[1, 1, 1], [0, 2, 4]], [[-1, 1], [3, -2]]) ∧
      |mget [[1, 1, 1], [0, 2, 4]] 1 2| ≤ 903) ∧
    (SL2Z_Make_Poly_NF 903 [[2, 4, 6], [3, 5, 7]] 2 3 =
        .ok ([[1, 1, 1], [0, 2, 4]], [[-1, 1], [3, -2]]) ∧
      |mget [[1, 1, 1], [0, 2, 4]] 0 1| ≤ 903) ∧
    ((∃ i < 1, ∃ j < 1, (1:Int) < |mget [[2]] i j|) ∧
      NFX_writeback 1 1 1 [[2]] = .err .limitExceeded) :=
  ⟨⟨rfl, NFX_limit_guard.1 903 [[2, 4, 6], [3, 5, 7]] 2 3 _ _ rfl 1 (by omega) 2 (by omega)⟩,
   ⟨rfl, NFX_limit_guard.2.1 903 [[2, 4, 6], [3, 5, 7]] 2 3 _ _ rfl 0 (by omega) 1 (by omega)⟩,
   ⟨by decide, NFX_limit_guard.2.2 1 1 1 [[2]] (by decide)⟩⟩

/-- Branch analysis for an if-then-else producing either the fatal abort
or a success. -/
lemma ite_err_abort {c : Prop} [Decidable c] {α : Type} (a : α) (e : PalpErr)
    (h : (if c then (.err .abort : PRes α) else .ok a) = .err e) : e = .abort := by
  split at h
  · injection h with h2
    exact h2.symm
  · exact PRes.noConfusion h

/-- The write-back of one candidate errs only fatally (`exit(0)` at the
`SYM_Nmax` check). -/
lemma vNF_line_wb_err (SYM_Nmax n : Nat) (st : LineSt) (e : PalpErr)
    (h : vNF_line_wb SYM_Nmax n st = .err e) : e = .abort := by
  unfold vNF_line_wb at h
  exact ite_err_abort _ _ h

/-- One candidate iteration of `Aux_vNF_Line` errs only fatally. -/
lemma vNF_line_cand_err (SYM_Nmax l nv nf : Nat) (x : Mat) (S : List Nat)
    (n : Nat) (CL : List PERM) (cf : Bool) (r : List Int) (e : PalpErr)
    (h : vNF_line_cand SYM_Nmax l nv nf x S n CL cf r = .err e) : e = .abort := by
  simp only [vNF_line_cand] at h
  split at h
  · rename_i e2 heq
    injection h with h2
    subst h2
    exact vNF_line_wb_err _ _ _ _ heq
  · exact PRes.noConfusion h

/-- The candidate loop of `Aux_vNF_Line` errs only fatally. -/
lemma vNF_line_loop_err (SYM_Nmax l nv nf : Nat) (x : Mat) (S : List Nat)
    (ns : List Nat) (acc : PRes (List PERM × Bool × List Int))
    (hacc : ∀ e, acc = .err e → e = .abort) (e : PalpErr)
    (h : ns.foldl (fun acc n =>
        match acc with
        | .err e => .err e
        | .ok (CLa, cf, r) => vNF_line_cand SYM_Nmax l nv nf x S n CLa cf r)
        acc = .err e) :
    e = .abort := by
  induction ns generalizing acc with
  | nil => exact hacc e h
  | cons m ms ih =>
    rw [List.foldl_cons] at h
    refine ih _ ?_ h
    intro e2 he2
    cases acc with
    | err ea => exact hacc e2 he2
    | ok w =>
      obtain ⟨CLa, cf, r⟩ := w
      exact vNF_line_cand_err _ _ _ _ _ _ _ _ _ _ _ he2

/-- `Aux_vNF_Line` errs only fatally. -/
lemma Aux_vNF_Line_err (SYM_Nmax l nv nf : Nat) (x : Mat) (CL : List PERM)
    (S : List Nat) (e : PalpErr)
    (h : Aux_vNF_Line SYM_Nmax l nv nf x CL S = .err e) : e = .abort := by
  simp only [Aux_vNF_Line] at h
  split at h
  · rename_i e2 heq
    injection h with h2
    subst h2
    refine vNF_line_loop_err SYM_Nmax l nv nf x S _ _ ?_ _ heq
    intro e3 he3
    exact PRes.noConfusion he3
  · exact PRes.noConfusion h

/-- The line loop of `Make_VPM_NF` errs only fatally. -/
lemma Make_VPM_NF_loop_err (SYM_Nmax v f : Nat) (x : Mat) (is : List Nat)
    (acc : PRes (List PERM × List Nat))
    (hacc : ∀ e, acc = .err e → e = .abort) (e : PalpErr)
    (h : is.foldl (fun acc i =>
        match acc with
        | .err e => .err e
        | .ok (CL, S) => Aux_vNF_Line SYM_Nmax i v f x CL S) acc = .err e) :
    e = .abort := by
  induction is generalizing acc with
  | nil => exact hacc e h
  | cons m ms ih =>
    rw [List.foldl_cons] at h
    refine ih _ ?_ h
    intro e2 he2
    cases acc with
    | err ea => exact hacc e2 he2
    | ok w =>
      obtain ⟨CL, S⟩ := w
      exact Aux_vNF_Line_err _ _ _ _ _ _ _ _ he2

/-- C6 (amended): during VPM canonicalization the only failure is the
fatal abort raised when the retained candidate count would exceed
`SYM_Nmax` (C `exit(0)`); the recoverable `limitExceeded` outcome is never
produced, and nothing is retried internally. -/
theorem Make_VPM_NF_err_abort (SYM_Nmax v f : Nat) (x : Mat) (e : PalpErr)
    (h : Make_VPM_NF SYM_Nmax v f x = .err e) : e = .abort := by
  simp only [Make_VPM_NF] at h
  split at h
  · rename_i e2 heq
    injection h with h2
    subst h2
    refine Make_VPM_NF_loop_err SYM_Nmax v f x _ _ ?_ _ heq
    intro e3 he3
    exact PRes.noConfusion he3
  · exact PRes.noConfusion h

/-- C6 counterexample: a `3×2` VPM of ties with candidate ceiling
`SYM_Nmax = 1` makes the canonicalization abort (`exit(0)`), not return
the recoverable `limitExceeded` the claim describes. -/
theorem Make_VPM_NF_abort_counterexample :
    Make_VPM_NF 1 2 3 [[1, 1], [1, 1], [1, 1]] = .err .abort ∧
    Make_VPM_NF 1 2 3 [[1, 1], [1, 1], [1, 1]] ≠ .err .limitExceeded := by
  refine ⟨rfl, ?_⟩
  intro hcontra
  cases hcontra

/-- C6 witness: the amended abort theorem applied at the concrete aborting
input. -/
theorem Make_VPM_NF_err_abort_witness :
    Make_VPM_NF 1 2 3 [[1, 1], [1, 1], [1, 1]] = .err .abort ∧
    PalpErr.abort = PalpErr.abort :=
  ⟨rfl, Make_VPM_NF_err_abort 1 2 3 [[1, 1], [1, 1], [1, 1]] .abort rfl⟩

set_option maxRecDepth 200000 in
set_option maxHeartbeats 4000000 in
/-- All 24 vertex orderings of the diamond with the identity rotation give
symmetry count 8 and the same normal form. -/
lemma diamond_rot0_all : ∀ σ ∈ ([0, 1, 2, 3] : List Nat).permutations',
    diamondRun σ [[1, 0], [0, 1]] [[1, 0], [0, 1]] = some (8, diamondNF) := by
  decide

set_option maxRecDepth 200000 in
set_option maxHeartbeats 4000000 in
/-- All 24 vertex orderings of the diamond rotated by 90° give symmetry
count 8 and the same normal form. -/
lemma diamond_rot1_all : ∀ σ ∈ ([0, 1, 2, 3] : List Nat).permutations',
    diamondRun σ [[0, -1], [1, 0]] [[0, 1], [-1, 0]] = some (8, diamondNF) := by
  decide

set_option maxRecDepth 200000 in
set_option maxHeartbeats 4000000 in
/-- All 24 vertex orderings of the diamond rotated by 180° give symmetry
count 8 and the same normal form. -/
lemma diamond_rot2_all : ∀ σ ∈ ([0, 1, 2, 3] : List Nat).permutations',
    diamondRun σ [[-1, 0], [0, -1]] [[-1, 0], [0, -1]] = some (8, diamondNF) := by
  decide

set_option maxRecDepth 200000 in
set_option maxHeartbeats 4000000 in
/-- All 24 vertex orderings of the diamond rotated by 270° give symmetry
count 8 and the same normal form. -/
lemma diamond_rot3_all : ∀ σ ∈ ([0, 1, 2, 3] : List Nat).permutations',
    diamondRun σ [[0, 1], [-1, 0]] [[0, -1], [1, 0]] = some (8, diamondNF) := by
  decide

/-- C8: on the square diamond (`d = 2`, vertices
`(1,0), (0,1), (−1,0), (0,−1)` with its four facet equations),
`Make_Poly_Sym_NF` returns symmetry-group size `SymNum = 8`, and for every
ordering of the four vertices combined with every unimodular rotation of
the coordinates (the four integer rotation matrices) the run returns the
same symmetry count and the same normal-form matrix. -/
theorem Make_Poly_Sym_NF_diamond :
    Make_Poly_Sym_NF 903 9999 9999 1000 diamondP diamondV diamondF =
      .ok (8, 8, diamondNF) ∧
    ∀ σ : List Nat, σ.Perm [0, 1, 2, 3] → ∀ q ∈ diamondRots,
      diamondRun σ q.1 q.2 = some (8, diamondNF) := by
  constructor
  · rfl
  · intro σ hσ q hq
    have hmem : σ ∈ ([0, 1, 2, 3] : List Nat).permutations' :=
      List.mem_permutations'.mpr hσ
    simp only [diamondRots, List.mem_cons, List.not_mem_nil, or_false] at hq
    rcases hq with rfl | rfl | rfl | rfl
    · exact diamond_rot0_all σ hmem
    · exact diamond_rot1_all σ hmem
    · exact diamond_rot2_all σ hmem
    · exact diamond_rot3_all σ hmem

/-- C8 witness: a concrete reordering combined with the 90° rotation. -/
theorem Make_Poly_Sym_NF_diamond_witness :
    ([1, 0, 2, 3] : List Nat).Perm [0, 1, 2, 3] ∧
    ([[0, -1], [1, 0]], [[0, 1], [-1, 0]]) ∈ diamondRots ∧
    diamondRun [1, 0, 2, 3] [[0, -1], [1, 0]] [[0, 1], [-1, 0]] =
      some (8, diamondNF) :=
  ⟨by decide, by decide,
   Make_Poly_Sym_NF_diamond.2 [1, 0, 2, 3] (by decide)
     ([[0, -1], [1, 0]], [[0, 1], [-1, 0]]) (by decide)⟩

lemma Aux_XltY_eq (X Y : Mat) (n nv : Nat) :
    Aux_XltY_Poly_NF X Y n nv =
      (match (List.range n).findSome? (fun i => rowCmp X Y nv i) with
       | some b => b
       | none => false) := rfl

lemma entryCmp_lt (X Y : Mat) (i j : Nat) :
    entryCmp X Y i j = some true ↔ mget X i j < mget Y i j := by
  simp only [entryCmp]
  split_ifs with h1 h2 <;> simp <;> omega

lemma entryCmp_gt (X Y : Mat) (i j : Nat) :
    entryCmp X Y i j = some false ↔ mget Y i j < mget X i j := by
  simp only [entryCmp]
  split_ifs with h1 h2 <;> simp <;> omega

lemma entryCmp_none (X Y : Mat) (i j : Nat) :
    entryCmp X Y i j = none ↔ mget X i j = mget Y i j := by
  simp only [entryCmp]
  split_ifs with h1 h2 <;> simp <;> omega

/-- Pointwise flips transfer through `findSome?`. -/
lemma findSome?_flip {α : Type} (I : List α) (g h : α → Option Bool)
    (hp : ∀ i, (g i = none → h i = none) ∧ (∀ b, g i = some b → h i = some (!b))) :
    (I.findSome? g = none → I.findSome? h = none) ∧
    (∀ b, I.findSome? g = some b → I.findSome? h = some (!b)) := by
  induction I with
  | nil => simp
  | cons a I ih =>
    rcases hga : g a with _ | b
    · have hha : h a = none := (hp a).1 hga
      simp only [List.findSome?_cons, hga, hha]
      exact ih
    · have hha : h a = some (!b) := (hp a).2 b hga
      simp only [List.findSome?_cons, hga, hha]
      constructor
      · intro hc
        exact Option.noConfusion hc
      · intro b2 hb2
        injection hb2 with hb2
        subst hb2
        rfl

/-- Pointwise lexicographic composition transfers through `findSome?`. -/
lemma findSome?_trans {α : Type} (I : List α) (g h k : α → Option Bool)
    (hp : ∀ i, (g i = none → h i = none → k i = none) ∧
               (g i = none → ∀ b, h i = some b → k i = some b) ∧
               (∀ b, g i = some b → h i = none → k i = some b) ∧
               (g i = some true → h i = some true → k i = some true)) :
    I.findSome? g = some true → I.findSome? h = some true →
    I.findSome? k = some true := by
  induction I with
  | nil =>
    intro hg _
    exact Option.noConfusion hg
  | cons a I ih =>
    intro hg hh
    rcases hga : g a with _ | bg
    · rcases hha : h a with _ | bh
      · have hka := (hp a).1 hga hha
        simp only [List.findSome?_cons, hga, hha] at hg hh
        simp only [List.findSome?_cons, hka]
        exact ih hg hh
      · have hka := (hp a).2.1 hga bh hha
        simp only [List.findSome?_cons, hga, hha] at hg hh
        injection hh with hh2
        subst hh2
        simp only [List.findSome?_cons, hka]
    · rcases hha : h a with _ | bh
      · simp only [List.findSome?_cons, hga, hha] at hg hh
        injection hg with hg2
        subst hg2
        have hka := (hp a).2.2.1 true hga hha
        simp only [List.findSome?_cons, hka]
      · simp only [List.findSome?_cons, hga, hha] at hg hh
        injection hg with hg2
        injection hh with hh2
        subst hg2
        subst hh2
        have hka := (hp a).2.2.2 hga hha
        simp only [List.findSome?_cons, hka]

lemma findSome?_ext {α β : Type} (I : List α) (g h : α → Option β)
    (hp : ∀ i ∈ I, g i = h i) : I.findSome? g = I.findSome? h := by
  induction I with
  | nil => rfl
  | cons a I ih =>
    simp only [List.findSome?_cons, hp a (by simp)]
    cases h a with
    | none => exact ih (fun i hi => hp i (by simp [hi]))
    | some b => rfl

/-- Entry congruence: equal left entries give equal comparisons. -/
lemma entryCmp_congr_left (X Y Z : Mat) (i j : Nat)
    (he : mget X i j = mget Y i j) : entryCmp X Z i j = entryCmp Y Z i j := by
  simp only [entryCmp, he]

lemma entryCmp_congr_right (X Y Z : Mat) (i j : Nat)
    (he : mget Y i j = mget Z i j) : entryCmp X Y i j = entryCmp X Z i j := by
  simp only [entryCmp, he]

/-- Row flips: pointwise consequence of the entry flips. -/
lemma rowCmp_flip (X Y : Mat) (nv i : Nat) :
    (rowCmp X Y nv i = none → rowCmp Y X nv i = none) ∧
    (∀ b, rowCmp X Y nv i = some b → rowCmp Y X nv i = some (!b)) := by
  apply findSome?_flip
  intro j
  constructor
  · intro hn
    rw [entryCmp_none] at hn
    rw [entryCmp_none]
    omega
  · intro b hb
    cases b with
    | true =>
      rw [entryCmp_lt] at hb
      show entryCmp Y X i j = some false
      rw [entryCmp_gt]
      omega
    | false =>
      rw [entryCmp_gt] at hb
      show entryCmp Y X i j = some true
      rw [entryCmp_lt]
      omega

/-- A row comparison is `none` exactly when the compared entries agree. -/
lemma rowCmp_none_iff (X Y : Mat) (nv i : Nat) :
    rowCmp X Y nv i = none ↔ ∀ j < nv, mget X i j = mget Y i j := by
  simp only [rowCmp, List.findSome?_eq_none, List.mem_range]
  constructor
  · intro hall j hj
    have := hall j hj
    rwa [entryCmp_none] at this
  · intro hall j hj
    rw [entryCmp_none]
    exact hall j hj

/-- The outer comparison is `true` exactly when the row scan returns
`some true`. -/
lemma Aux_XltY_true_iff (X Y : Mat) (n nv : Nat) :
    Aux_XltY_Poly_NF X Y n nv = true ↔
      (List.range n).findSome? (fun i => rowCmp X Y nv i) = some true := by
  rw [Aux_XltY_eq]
  cases h : (List.range n).findSome? (fun i => rowCmp X Y nv i) with
  | none => simp
  | some b => cases b <;> simp

/-- Irreflexivity of the lexicographic comparison. -/
lemma Aux_XltY_irrefl (X : Mat) (n nv : Nat) :
    Aux_XltY_Poly_NF X X n nv = false := by
  rw [Aux_XltY_eq]
  have h : (List.range n).findSome? (fun i => rowCmp X X nv i) = none := by
    rw [List.findSome?_eq_none]
    intro i _
    rw [rowCmp_none_iff]
    intro j _
    rfl
  rw [h]

/-- Asymmetry of the lexicographic comparison. -/
lemma Aux_XltY_asym (X Y : Mat) (n nv : Nat)
    (h : Aux_XltY_Poly_NF X Y n nv = true) :
    Aux_XltY_Poly_NF Y X n nv = false := by
  rw [Aux_XltY_true_iff] at h
  have hf := (findSome?_flip (List.range n) (fun i => rowCmp X Y nv i)
    (fun i => rowCmp Y X nv i) (fun i => rowCmp_flip X Y nv i)).2 true h
  rw [Aux_XltY_eq, hf]
  rfl

/-- Transitivity of the lexicographic comparison. -/
lemma Aux_XltY_trans (X Y Z : Mat) (n nv : Nat)
    (h1 : Aux_XltY_Poly_NF X Y n nv = true)
    (h2 : Aux_XltY_Poly_NF Y Z n nv = true) :
    Aux_XltY_Poly_NF X Z n nv = true := by
  rw [Aux_XltY_true_iff] at h1 h2 ⊢
  refine findSome?_trans (List.range n) _ _ _ ?_ h1 h2
  intro i
  refine ⟨?_, ?_, ?_, ?_⟩
  · intro hg hh
    rw [rowCmp_none_iff] at hg hh ⊢
    intro j hj
    rw [hg j hj, hh j hj]
  · intro hg b hh
    rw [rowCmp_none_iff] at hg
    rw [show rowCmp X Z nv i = rowCmp Y Z nv i from ?_]
    · exact hh
    · apply findSome?_ext
      intro j hj
      exact entryCmp_congr_left X Y Z i j (hg j (by simpa using hj))
  · intro b hg hh
    rw [rowCmp_none_iff] at hh
    rw [show rowCmp X Z nv i = rowCmp X Y nv i from ?_]
    · exact hg
    · apply findSome?_ext
      intro j hj
      exact entryCmp_congr_right X Y Z i j (hh j (by simpa using hj)) |>.symm
  · intro hg hh
    refine findSome?_trans (List.range nv) _ _ _ ?_ hg hh
    intro j
    refine ⟨?_, ?_, ?_, ?_⟩
    · intro ha hb
      rw [entryCmp_none] at ha hb ⊢
      omega
    · intro ha b hb
      rw [entryCmp_none] at ha
      rw [show entryCmp X Z i j = entryCmp Y Z i j from entryCmp_congr_left X Y Z i j ha]
      exact hb
    · intro b ha hb
      rw [entryCmp_none] at hb
      rw [show entryCmp X Z i j = entryCmp X Y i j from
        (entryCmp_congr_right X Y Z i j hb).symm]
      exact ha
    · intro ha hb
      rw [entryCmp_lt] at ha hb ⊢
      omega

/-- If neither matrix precedes the other, all compared entries agree. -/
lemma Aux_XltY_both_false (X Y : Mat) (n nv : Nat)
    (h1 : Aux_XltY_Poly_NF X Y n nv = false)
    (h2 : Aux_XltY_Poly_NF Y X n nv = false) :
    ∀ i < n, ∀ j < nv, mget X i j = mget Y i j := by
  have houter : (List.range n).findSome? (fun i => rowCmp X Y nv i) = none := by
    cases ho : (List.range n).findSome? (fun i => rowCmp X Y nv i) with
    | none => rfl
    | some b =>
      cases b with
      | true =>
        rw [Aux_XltY_eq, ho] at h1
        exact absurd h1 (by simp)
      | false =>
        have hf := (findSome?_flip (List.range n) (fun i => rowCmp X Y nv i)
          (fun i => rowCmp Y X nv i) (fun i => rowCmp_flip X Y nv i)).2 false ho
        rw [Aux_XltY_eq, hf] at h2
        exact absurd h2 (by simp)
  rw [List.findSome?_eq_none] at houter
  intro i hi j hj
  have := houter i (by simpa using hi)
  rw [rowCmp_none_iff] at this
  exact this j hj

/-- Shaped matrices with equal compared entries are equal. -/
lemma Shaped_ext (X Y : Mat) (n nv : Nat) (hX : Shaped X n nv)
    (hY : Shaped Y n nv) (he : ∀ i < n, ∀ j < nv, mget X i j = mget Y i j) :
    X = Y := by
  obtain ⟨hXl, hXr⟩ := hX
  obtain ⟨hYl, hYr⟩ := hY
  apply List.ext_getElem (by omega)
  intro i h1 h2
  have hri : X[i].length = nv := hXr _ (List.getElem_mem h1)
  have hsi : Y[i].length = nv := hYr _ (List.getElem_mem h2)
  apply List.ext_getElem (by omega)
  intro j hj1 hj2
  have hmi : mget X i j = X[i][j] := by
    simp only [mget, lget, mrow]
    rw [List.getD_eq_getElem X [] h1, List.getD_eq_getElem X[i] 0 hj1]
  have hmj : mget Y i j = Y[i][j] := by
    simp only [mget, lget, mrow]
    rw [List.getD_eq_getElem Y [] h2, List.getD_eq_getElem Y[i] 0 hj2]
  rw [← hmi, ← hmj]
  exact he i (by omega) j (by omega)

/-- Tie detection: if neither shaped matrix precedes the other they are
equal. -/
lemma Aux_XltY_tie_eq (X Y : Mat) (n nv : Nat) (hX : Shaped X n nv)
    (hY : Shaped Y n nv) (h1 : Aux_XltY_Poly_NF X Y n nv = false)
    (h2 : Aux_XltY_Poly_NF Y X n nv = false) : X = Y :=
  Shaped_ext X Y n nv hX hY (Aux_XltY_both_false X Y n nv h1 h2)

/-- A fold preserves any property preserved by each step. -/
lemma foldl_preserve {α β : Type} (p : α → Prop) (f : α → β → α) (l : List β)
    (init : α) (hinit : p init) (hf : ∀ a b, p a → p (f a b)) :
    p (l.foldl f init) := by
  induction l generalizing init with
  | nil => exact hinit
  | cons y ys ih => exact ih (f init y) (hf init y hinit)

/-- Setting a row of the right length preserves the shape. -/
lemma Shaped_set_row (M : Mat) (n nv i : Nat) (r : List Int)
    (hM : Shaped M n nv) (hr : r.length = nv) : Shaped (M.set i r) n nv := by
  refine ⟨by simp [hM.1], ?_⟩
  intro r2 hr2
  rcases List.mem_or_eq_of_mem_set hr2 with h | h
  · exact hM.2 r2 h
  · rw [h]
    exact hr

/-- Rows of a shaped matrix have length `nv`. -/
lemma Shaped_mrow_length (M : Mat) (n nv i : Nat) (hM : Shaped M n nv)
    (hi : i < M.length) : (mrow M i).length = nv := by
  apply hM.2
  simp only [mrow]
  rw [List.getD_eq_getElem M [] hi]
  exact List.getElem_mem hi

/-- Entry update preserves the shape. -/
lemma Shaped_mset (M : Mat) (n nv : Nat) (i c : Nat) (v : Int)
    (hM : Shaped M n nv) : Shaped (mset M i c v) n nv := by
  by_cases hi : i < M.length
  · apply Shaped_set_row M n nv i _ hM
    rw [List.length_set]
    exact Shaped_mrow_length M n nv i hM hi
  · simp only [mset]
    rw [List.set_eq_of_length_le (by omega)]
    exact hM

/-- Column materialization preserves the shape. -/
lemma Shaped_matCol (G X : Mat) (n nv : Nat) (NF : Mat) (c : Nat)
    (hNF : Shaped NF n nv) : Shaped (matCol G X n NF c) n nv := by
  apply foldl_preserve (fun M => Shaped M n nv) _ _ _ hNF
  intro M i hMp
  exact Shaped_mset _ _ _ _ _ _ hMp

/-- The pivot-column search preserves the shape of the working matrix. -/
lemma Shaped_GLZ_findCol (G X : Mat) (n nv L : Nat) :
    ∀ (fuel c : Nat) (NF NF' : Mat) (c' : Nat) (W : List Int) (p : List Nat),
    GLZ_findCol G X n nv L fuel c NF = .ok (NF', c', W, p) →
    Shaped NF n nv → Shaped NF' n nv := by
  intro fuel
  induction fuel with
  | zero =>
    intro c NF NF' c' W p h
    exact PRes.noConfusion h
  | succ fuel ih =>
    intro c NF NF' c' W p h hNF
    simp only [GLZ_findCol] at h
    split at h
    · split at h
      · exact ih (c + 1) _ _ _ _ _ h (Shaped_matCol G X n nv NF c hNF)
      · injection h with h2
        injection h2 with h3 h4
        subst h3
        exact Shaped_matCol G X n nv NF c hNF
    · exact PRes.noConfusion h

/-- The pivot placement preserves the shape of the working matrix. -/
lemma Shaped_GLZ_pivot (n nv L : Nat) (G NF : Mat) (c : Nat) (W : List Int)
    (p : List Nat) (hNF : Shaped NF n nv) :
    Shaped (GLZ_pivot n L G NF c W p).1 n nv := by
  simp only [GLZ_pivot]
  apply foldl_preserve (fun (MG : Mat × Mat) => Shaped MG.1 n nv)
  · apply foldl_preserve (fun M => Shaped M n nv)
    · exact Shaped_mset _ _ _ _ _ _ hNF
    · intro M i hMp
      exact Shaped_mset _ _ _ _ _ _ hMp
  · intro MG i hMp
    exact Shaped_mset _ _ _ _ _ _ hMp

/-- The pivot loop preserves the shape of the working matrix. -/
lemma Shaped_GLZ_loop (X : Mat) (n nv : Nat) :
    ∀ (fuel L c : Nat) (G NF : Mat) (c' : Nat) (G' NF' : Mat),
    GLZ_loop X n nv fuel L c G NF = .ok (c', G', NF') →
    Shaped NF n nv → Shaped NF' n nv := by
  intro fuel
  induction fuel with
  | zero =>
    intro L c G NF c' G' NF' h hNF
    injection h with h2
    injection h2 with h3 h4
    injection h4 with h5 h6
    subst h6
    exact hNF
  | succ fuel ih =>
    intro L c G NF c' G' NF' h hNF
    simp only [GLZ_loop] at h
    split at h
    · have hb : ∃ a, GLZ_findCol G X n nv L (nv - c) c NF = .ok a ∧
          (match a with
           | (NF2, c2, W, p) =>
             GLZ_loop X n nv fuel (L + 1) (c2 + 1)
               (GLZ_pivot n L G NF2 c2 W p).2 (GLZ_pivot n L G NF2 c2 W p).1) = .ok (c', G', NF') := by
        cases hfc : GLZ_findCol G X n nv L (nv - c) c NF with
        | ok a =>
          refine ⟨a, rfl, ?_⟩
          rw [hfc] at h
          exact h
        | err e =>
          rw [hfc] at h
          exact PRes.noConfusion h
      obtain ⟨⟨NF2, c2, W, p⟩, hfc, hcont⟩ := hb
      have hNF2 : Shaped NF2 n nv :=
        Shaped_GLZ_findCol G X n nv L _ _ _ _ _ _ _ hfc hNF
      exact ih (L + 1) (c2 + 1) _ _ _ _ _ hcont
        (Shaped_GLZ_pivot n nv L G NF2 c2 W p hNF2)
    · injection h with h2
      injection h2 with h3 h4
      injection h4 with h5 h6
      subst h6
      exact hNF

/-- The trailing materialization preserves the shape. -/
lemma Shaped_GLZ_tail (G X : Mat) (n nv c : Nat) (NF : Mat)
    (hNF : Shaped NF n nv) : Shaped (GLZ_tail G X n nv c NF) n nv := by
  apply foldl_preserve (fun M => Shaped M n nv) _ _ _ hNF
  intro M col hMp
  exact Shaped_matCol G X n nv M col hMp

/-- A successful reduction returns a matrix of `n` rows of length `nv`. -/
lemma Aux_Make_Poly_NF_shape (lim : Int) (X : Mat) (n nv : Nat) (M : Mat)
    (h : Aux_Make_Poly_NF lim X n nv = .ok M) : Shaped M n nv := by
  simp only [Aux_Make_Poly_NF, GLZ_Make_Trian_NF, bind] at h
  obtain ⟨r, hchain, hpure⟩ := PRes_bind_ok _ _ _ h
  injection hpure with h7
  subst h7
  obtain ⟨d, hloop, h2⟩ := PRes_bind_ok _ _ _ hchain
  obtain ⟨NFok, hwb, h3⟩ := PRes_bind_ok _ _ _ h2
  injection h3 with h8
  subst h8
  obtain ⟨c, G, NF⟩ := d
  have hsh0 : Shaped (List.replicate n (List.replicate nv (0:Int))) n nv := by
    constructor
    · simp
    · intro r2 hr2
      rw [List.eq_of_mem_replicate hr2]
      simp
  have hNF : Shaped NF n nv := Shaped_GLZ_loop X n nv n 0 0 _ _ _ _ _ hloop hsh0
  simp only [NFX_writeback] at hwb
  split at hwb
  · injection hwb with h9
    subst h9
    exact Shaped_GLZ_tail G X n nv c NF hNF
  · exact PRes.noConfusion hwb

/-- Entry update of a candidate list, described through `pget`. -/
lemma pget_set (CL : List PERM) (i k : Nat) (v : PERM) :
    pget (CL.set i v) k = if k = i ∧ i < CL.length then v else pget CL k := by
  simp only [pget]
  rw [List.getD_eq_getElem?_getD, List.getD_eq_getElem?_getD, List.getElem?_set]
  by_cases h1 : i = k
  · subst h1
    by_cases h2 : i < CL.length
    · simp [h2]
    · simp [h2, List.getElem?_eq_none (show CL.length ≤ i by omega)]
  · rw [if_neg h1, if_neg (by omega)]

/-- Members of candidate lists through `pget`. -/
lemma pget_mem (CL : List PERM) (k : Nat) (hk : k < CL.length) :
    pget CL k ∈ CL := by
  simp only [pget]
  rw [List.getD_eq_getElem CL PERM0 hk]
  exact List.getElem_mem hk

/-- The flag-clearing folds of `Aux_Make_Triang` leave the length and the
permutation data unchanged and clear exactly the flags at the visited
indices. -/
lemma clear_fold_pget (I : List Nat) (CL : List PERM) :
    (I.foldl (fun CLc k => CLc.set k ⟨(pget CLc k).C, (pget CLc k).L, false⟩)
      CL).length = CL.length ∧
    ∀ k, pget (I.foldl (fun CLc k =>
        CLc.set k ⟨(pget CLc k).C, (pget CLc k).L, false⟩) CL) k =
      if k ∈ I ∧ k < CL.length then ⟨(pget CL k).C, (pget CL k).L, false⟩
      else pget CL k := by
  induction I generalizing CL with
  | nil => simp
  | cons a I ih =>
    rw [List.foldl_cons]
    obtain ⟨ihl, ihe⟩ := ih (CL.set a ⟨(pget CL a).C, (pget CL a).L, false⟩)
    constructor
    · rw [ihl, List.length_set]
    · intro k
      rw [ihe k]
      rw [List.length_set]
      by_cases hka : k = a
      · subst hka
        by_cases hkl : k < CL.length
        · by_cases hkI : k ∈ I
          · rw [if_pos ⟨hkI, hkl⟩, if_pos ⟨by simp, hkl⟩]
            rw [pget_set]
            rw [if_pos ⟨rfl, hkl⟩]
          · rw [if_neg (by tauto), if_pos ⟨by simp, hkl⟩]
            rw [pget_set]
            rw [if_pos ⟨rfl, hkl⟩]
        · rw [if_neg (by tauto), if_neg (by tauto)]
          rw [pget_set]
          rw [if_neg (by tauto)]
      · have hps : pget (CL.set a ⟨(pget CL a).C, (pget CL a).L, false⟩) k = pget CL k := by
          rw [pget_set]
          rw [if_neg (by tauto)]
        rw [hps]
        by_cases hkl : k < CL.length
        · by_cases hkI : k ∈ I
          · rw [if_pos ⟨hkI, hkl⟩, if_pos ⟨by simp [hkI], hkl⟩]
          · rw [if_neg (by tauto), if_neg (by simp [hkI, hka])]
        · rw [if_neg (by tauto), if_neg (by tauto)]

/-- Membership in an integer range of step one. -/
lemma mem_range1_iff (a n m : Nat) : m ∈ List.range' a n ↔ a ≤ m ∧ m < a + n := by
  induction n generalizing a with
  | zero => simp
  | succ k ih =>
    rw [List.range'_succ, List.mem_cons, ih]
    omega

/-- The candidate fold of `Aux_Make_Triang` propagates errors. -/
lemma AMT_err_fold (lim : Int) (V : Mat) (n nv : Nat) (l : List Nat)
    (e : PalpErr) :
    l.foldl (AMT_step lim V n nv) (PRes.err e) = PRes.err e := by
  induction l with
  | nil => rfl
  | cons a l ih => rw [List.foldl_cons]; exact ih

/-- Behaviour of one candidate step when the new reduction is strictly
smaller than the running best (trace mode, negative counter): the best is
replaced, the flags on `[g, s)` are cleared and the flag of `s` is set. -/
lemma AMT_step_better (lim : Int) (V : Mat) (n nv : Nat) (best : Mat)
    (CLa : List PERM) (g : Nat) (ta : Int) (s : Nat) (Y : Mat)
    (hred : Aux_Make_Poly_NF lim (permuteCols V (pget CLa s).C n nv) n nv = PRes.ok Y)
    (hxy : Aux_XltY_Poly_NF Y best n nv = true) (hta : ta < 0) :
    AMT_step lim V n nv (PRes.ok (best, CLa, g, ta)) s =
      PRes.ok (Y, ((List.range' g (s - g)).foldl (fun CLc k =>
        CLc.set k ⟨(pget CLc k).C, (pget CLc k).L, false⟩) CLa).set s
        ⟨(pget CLa s).C, (pget CLa s).L, true⟩, s, -1) := by
  have h1 : (ta ≠ 0) = True := eq_true (by omega)
  have h2 : (ta < 0) = True := eq_true hta
  simp only [AMT_step]
  rw [hred]
  simp only [hxy, h1, h2, eq_self_iff_true, if_true]

/-- Behaviour of one candidate step when the new reduction ties with the
running best (trace mode, negative counter): the flag of `s` is set and
the counter decreases. -/
lemma AMT_step_tie (lim : Int) (V : Mat) (n nv : Nat) (best : Mat)
    (CLa : List PERM) (g : Nat) (ta : Int) (s : Nat) (Y : Mat)
    (hred : Aux_Make_Poly_NF lim (permuteCols V (pget CLa s).C n nv) n nv = PRes.ok Y)
    (hxy : Aux_XltY_Poly_NF Y best n nv = false)
    (hyx : Aux_XltY_Poly_NF best Y n nv = false) (hta : ta < 0) :
    AMT_step lim V n nv (PRes.ok (best, CLa, g, ta)) s =
      PRes.ok (best, CLa.set s ⟨(pget CLa s).C, (pget CLa s).L, true⟩, g, ta - 1) := by
  have h2 : (ta < 0) = True := eq_true hta
  simp only [AMT_step]
  rw [hred]
  simp only [hxy, hyx, Bool.not_false, Bool.false_eq_true, if_false,
    eq_self_iff_true, if_true, h2]

/-- Behaviour of one candidate step when the new reduction is strictly
larger than the running best: nothing changes. -/
lemma AMT_step_worse (lim : Int) (V : Mat) (n nv : Nat) (best : Mat)
    (CLa : List PERM) (g : Nat) (ta : Int) (s : Nat) (Y : Mat)
    (hred : Aux_Make_Poly_NF lim (permuteCols V (pget CLa s).C n nv) n nv = PRes.ok Y)
    (hxy : Aux_XltY_Poly_NF Y best n nv = false)
    (hyx : Aux_XltY_Poly_NF best Y n nv = true) :
    AMT_step lim V n nv (PRes.ok (best, CLa, g, ta)) s =
      PRes.ok (best, CLa, g, ta) := by
  simp only [AMT_step]
  rw [hred]
  simp only [hxy, hyx, Bool.not_true, Bool.false_eq_true, if_false]

/-- Behaviour of one candidate step when the reduction of candidate `s`
fails: abort. -/
lemma AMT_step_err (lim : Int) (V : Mat) (n nv : Nat) (best : Mat)
    (CLa : List PERM) (g : Nat) (ta : Int) (s : Nat) (e : PalpErr)
    (hred : Aux_Make_Poly_NF lim (permuteCols V (pget CLa s).C n nv) n nv = PRes.err e) :
    AMT_step lim V n nv (PRes.ok (best, CLa, g, ta)) s = PRes.err PalpErr.abort := by
  simp only [AMT_step]
  rw [hred]

/-- One step of the candidate loop preserves the invariant. -/
lemma AMT_step_inv (lim : Int) (V : Mat) (n nv : Nat) (CL : List PERM)
    (s0 : Nat) (h1 : 1 ≤ s0) (hs : s0 < CL.length)
    (best : Mat) (CLa : List PERM) (g : Nat) (ta : Int)
    (hinv : AMTInv lim V n nv CL (s0 - 1) best CLa g ta) (Y : Mat)
    (hY : reduceOf lim V n nv (pget CL s0) = PRes.ok Y) :
    ∃ b c gn t, AMT_step lim V n nv (PRes.ok (best, CLa, g, ta)) s0 =
      PRes.ok (b, c, gn, t) ∧ AMTInv lim V n nv CL s0 b c gn t := by
  obtain ⟨i0, ⟨kb, hkb, hkbr⟩, i2, i3, i4, i5, ⟨hg1, hg2, hg3⟩, i7⟩ := hinv
  have hCeq : (pget CLa s0).C = (pget CL s0).C := (i4 s0).1
  have hred : Aux_Make_Poly_NF lim (permuteCols V (pget CLa s0).C n nv) n nv =
      PRes.ok Y := by
    rw [hCeq]; exact hY
  have hYget : getOk (reduceOf lim V n nv (pget CL s0)) = Y := by rw [hY]; rfl
  have hYsh : Shaped Y n nv :=
    Aux_Make_Poly_NF_shape lim (permuteCols V (pget CL s0).C n nv) n nv Y hY
  have hbsh : Shaped best n nv :=
    Aux_Make_Poly_NF_shape lim (permuteCols V (pget CL kb).C n nv) n nv best hkbr
  cases hxy : Aux_XltY_Poly_NF Y best n nv with
  | true =>
    refine ⟨_, _, _, _, AMT_step_better lim V n nv best CLa g ta s0 Y hred hxy i7, ?_⟩
    have hFlen : ((List.range' g (s0 - g)).foldl (fun CLc k =>
        CLc.set k ⟨(pget CLc k).C, (pget CLc k).L, false⟩) CLa).length = CLa.length :=
      (clear_fold_pget _ _).1
    have hFget := (clear_fold_pget (List.range' g (s0 - g)) CLa).2
    have hnoY : ∀ k, k ≤ s0 - 1 → reduceOf lim V n nv (pget CL k) ≠ PRes.ok Y := by
      intro k hk hEq
      have hg2 : getOk (reduceOf lim V n nv (pget CL k)) = Y := by rw [hEq]; rfl
      have h2 := i2 k hk
      rw [hg2] at h2
      rw [h2] at hxy
      exact Bool.noConfusion hxy
    refine ⟨?_, ⟨s0, le_refl _, hY⟩, ?_, ?_, ?_, ?_, ⟨le_refl _, hY, ?_⟩, by norm_num⟩
    · intro k hk
      rcases Nat.lt_or_ge k s0 with h | h
      · exact i0 k (by omega)
      · exact ⟨Y, by rw [show k = s0 by omega]; exact hY⟩
    · intro k hk
      rcases Nat.lt_or_ge k s0 with h | h
      · cases hc : Aux_XltY_Poly_NF (getOk (reduceOf lim V n nv (pget CL k))) Y n nv with
        | false => rfl
        | true =>
          have h3 := Aux_XltY_trans _ Y best n nv hc hxy
          rw [i2 k (by omega)] at h3
          exact Bool.noConfusion h3
      · rw [show k = s0 by omega, hYget]
        exact Aux_XltY_irrefl Y n nv
    · rw [List.length_set, hFlen]
      exact i3
    · intro k
      rw [pget_set]
      by_cases hk : k = s0 ∧ s0 < ((List.range' g (s0 - g)).foldl (fun CLc k =>
          CLc.set k ⟨(pget CLc k).C, (pget CLc k).L, false⟩) CLa).length
      · rw [if_pos hk]
        obtain ⟨hk1, _⟩ := hk
        subst hk1
        exact ⟨(i4 k).1, (i4 k).2⟩
      · rw [if_neg hk, hFget k]
        by_cases hk2 : k ∈ List.range' g (s0 - g) ∧ k < CLa.length
        · rw [if_pos hk2]
          exact ⟨(i4 k).1, (i4 k).2⟩
        · rw [if_neg hk2]
          exact i4 k
    · intro k hklen
      rw [pget_set]
      by_cases hk : k = s0
      · subst hk
        rw [if_pos ⟨rfl, by rw [hFlen, i3]; exact hs⟩]
        constructor
        · intro _
          exact ⟨le_refl _, hY⟩
        · intro _
          rfl
      · rw [if_neg (by tauto), hFget k]
        have hklt2 : k < CLa.length := by rw [i3]; exact hklen
        by_cases hk2 : k ∈ List.range' g (s0 - g) ∧ k < CLa.length
        · rw [if_pos hk2]
          simp only [Bool.false_eq_true, false_iff]
          rintro ⟨hk3, hk4⟩
          obtain ⟨hkg, hklt⟩ := (mem_range1_iff _ _ _).1 hk2.1
          exact hnoY k (by omega) hk4
        · have hnm : ¬(g ≤ k ∧ k < g + (s0 - g)) := by
            intro hc
            exact hk2 ⟨(mem_range1_iff _ _ _).2 hc, hklt2⟩
          rw [if_neg hk2, i5 k hklen]
          constructor
          · rintro ⟨hk3, hk4⟩
            exfalso
            rcases Nat.lt_or_ge k g with hlt | hge
            · exact hg3 k hlt hk4
            · exact hnm ⟨hge, by omega⟩
          · rintro ⟨hk3, hk4⟩
            exfalso
            rcases Nat.lt_or_ge k g with hlt | hge
            · exact hnoY k (by omega) hk4
            · exact hnm ⟨hge, by omega⟩
    · intro k hk
      exact hnoY k (by omega)
  | false =>
    cases hyx : Aux_XltY_Poly_NF best Y n nv with
    | true =>
      refine ⟨_, _, _, _, AMT_step_worse lim V n nv best CLa g ta s0 Y hred hxy hyx, ?_⟩
      have hYneB : reduceOf lim V n nv (pget CL s0) ≠ PRes.ok best := by
        rw [hY]
        intro hc
        injection hc with hc2
        rw [hc2] at hyx
        rw [Aux_XltY_irrefl] at hyx
        exact Bool.noConfusion hyx
      refine ⟨?_, ⟨kb, by omega, hkbr⟩, ?_, i3, i4, ?_, ⟨by omega, hg2, hg3⟩, i7⟩
      · intro k hk
        rcases Nat.lt_or_ge k s0 with h | h
        · exact i0 k (by omega)
        · exact ⟨Y, by rw [show k = s0 by omega]; exact hY⟩
      · intro k hk
        rcases Nat.lt_or_ge k s0 with h | h
        · exact i2 k (by omega)
        · rw [show k = s0 by omega, hYget]
          exact hxy
      · intro k hklen
        rw [i5 k hklen]
        constructor
        · rintro ⟨hh1, hh2⟩
          exact ⟨by omega, hh2⟩
        · rintro ⟨hh1, hh2⟩
          refine ⟨?_, hh2⟩
          rcases Nat.lt_or_ge k s0 with h | h
          · omega
          · exfalso
            rw [show k = s0 by omega] at hh2
            exact hYneB hh2
    | false =>
      have hYeq : Y = best := Aux_XltY_tie_eq Y best n nv hYsh hbsh hxy hyx
      refine ⟨_, _, _, _, AMT_step_tie lim V n nv best CLa g ta s0 Y hred hxy hyx i7, ?_⟩
      refine ⟨?_, ⟨kb, by omega, hkbr⟩, ?_, ?_, ?_, ?_, ⟨by omega, hg2, hg3⟩, by omega⟩
      · intro k hk
        rcases Nat.lt_or_ge k s0 with h | h
        · exact i0 k (by omega)
        · exact ⟨Y, by rw [show k = s0 by omega]; exact hY⟩
      · intro k hk
        rcases Nat.lt_or_ge k s0 with h | h
        · exact i2 k (by omega)
        · rw [show k = s0 by omega, hYget, hYeq]
          exact Aux_XltY_irrefl best n nv
      · rw [List.length_set]
        exact i3
      · intro k
        rw [pget_set]
        by_cases hk : k = s0 ∧ s0 < CLa.length
        · rw [if_pos hk]
          obtain ⟨hk1, _⟩ := hk
          subst hk1
          exact ⟨(i4 k).1, (i4 k).2⟩
        · rw [if_neg hk]
          exact i4 k
      · intro k hklen
        rw [pget_set]
        by_cases hk : k = s0
        · subst hk
          rw [if_pos ⟨rfl, by rw [i3]; exact hklen⟩]
          constructor
          · intro _
            exact ⟨le_refl _, by rw [← hYeq]; exact hY⟩
          · intro _
            rfl
        · rw [if_neg (by tauto), i5 k hklen]
          constructor
          · rintro ⟨hh1, hh2⟩
            exact ⟨by omega, hh2⟩
          · rintro ⟨hh1, hh2⟩
            exact ⟨by omega, hh2⟩

/-- The candidate fold preserves the invariant over a whole index range. -/
lemma AMT_fold_inv (lim : Int) (V : Mat) (n nv : Nat) (CL : List PERM) :
    ∀ (cnt s0 : Nat) (best : Mat) (CLa : List PERM) (g : Nat) (ta : Int)
      (b : Mat) (c : List PERM) (gn : Nat) (t : Int),
    1 ≤ s0 → s0 + cnt ≤ CL.length →
    (List.range' s0 cnt).foldl (AMT_step lim V n nv) (PRes.ok (best, CLa, g, ta)) =
      PRes.ok (b, c, gn, t) →
    AMTInv lim V n nv CL (s0 - 1) best CLa g ta →
    AMTInv lim V n nv CL (s0 + cnt - 1) b c gn t := by
  intro cnt
  induction cnt with
  | zero =>
    intro s0 best CLa g ta b c gn t hh1 hh2 hfold hinv
    rw [show List.range' s0 0 = [] from rfl, List.foldl_nil] at hfold
    injection hfold with hh
    obtain ⟨e1, e2, e3, e4⟩ : best = b ∧ CLa = c ∧ g = gn ∧ ta = t := by
      simpa [Prod.ext_iff] using hh
    subst e1
    subst e2
    subst e3
    subst e4
    rw [show s0 + 0 - 1 = s0 - 1 from by omega]
    exact hinv
  | succ m ih =>
    intro s0 best CLa g ta b c gn t hh1 hh2 hfold hinv
    rw [List.range'_succ, List.foldl_cons] at hfold
    cases hr : reduceOf lim V n nv (pget CL s0) with
    | err e =>
      have hCeq : (pget CLa s0).C = (pget CL s0).C := (hinv.2.2.2.2.1 s0).1
      have hrede : Aux_Make_Poly_NF lim (permuteCols V (pget CLa s0).C n nv) n nv =
          PRes.err e := by
        rw [hCeq]; exact hr
      rw [AMT_step_err lim V n nv best CLa g ta s0 e hrede, AMT_err_fold] at hfold
      exact PRes.noConfusion hfold
    | ok Y =>
      obtain ⟨b1, c1, g1, t1, hstepeq, hinv1⟩ :=
        AMT_step_inv lim V n nv CL s0 hh1 (by omega) best CLa g ta hinv Y hr
      rw [hstepeq] at hfold
      have hres := ih (s0 + 1) b1 c1 g1 t1 b c gn t (by omega) (by omega) hfold
        (by rw [show s0 + 1 - 1 = s0 from by omega]; exact hinv1)
      rw [show s0 + 1 + m - 1 = s0 + (m + 1) - 1 from by omega] at hres
      exact hres

/-- The initial state of the candidate loop satisfies the invariant. -/
lemma AMT_base_inv (lim : Int) (V : Mat) (n nv : Nat) (CL : List PERM)
    (hne : 0 < CL.length) (X0 : Mat)
    (hX0 : reduceOf lim V n nv (pget CL 0) = PRes.ok X0) :
    AMTInv lim V n nv CL 0 X0
      ((List.range' 1 ((CL.set 0 ⟨(pget CL 0).C, (pget CL 0).L, true⟩).length - 1)).foldl
        (fun CLa s => CLa.set s ⟨(pget CLa s).C, (pget CLa s).L, false⟩)
        (CL.set 0 ⟨(pget CL 0).C, (pget CL 0).L, true⟩))
      0 (-1) := by
  have hX0get : getOk (reduceOf lim V n nv (pget CL 0)) = X0 := by rw [hX0]; rfl
  have hlen1 : (CL.set 0 ⟨(pget CL 0).C, (pget CL 0).L, true⟩).length = CL.length := by
    simp
  have hCL1 : ∀ j, (pget (CL.set 0 ⟨(pget CL 0).C, (pget CL 0).L, true⟩) j).C =
      (pget CL j).C ∧ (pget (CL.set 0 ⟨(pget CL 0).C, (pget CL 0).L, true⟩) j).L =
      (pget CL j).L := by
    intro j
    rw [pget_set]
    by_cases hj : j = 0 ∧ 0 < CL.length
    · rw [if_pos hj]
      obtain ⟨hj1, _⟩ := hj
      subst hj1
      exact ⟨rfl, rfl⟩
    · rw [if_neg hj]
      exact ⟨rfl, rfl⟩
  refine ⟨?_, ⟨0, le_refl 0, hX0⟩, ?_, ?_, ?_, ?_,
    ⟨le_refl 0, hX0, fun k hk => absurd hk (Nat.not_lt_zero k)⟩, by norm_num⟩
  · intro k hk
    rw [show k = 0 from by omega]
    exact ⟨X0, hX0⟩
  · intro k hk
    rw [show k = 0 from by omega, hX0get]
    exact Aux_XltY_irrefl X0 n nv
  · rw [(clear_fold_pget _ _).1, hlen1]
  · intro k
    rw [(clear_fold_pget _ _).2 k]
    by_cases hk2 : k ∈ List.range' 1
        ((CL.set 0 ⟨(pget CL 0).C, (pget CL 0).L, true⟩).length - 1) ∧
        k < (CL.set 0 ⟨(pget CL 0).C, (pget CL 0).L, true⟩).length
    · rw [if_pos hk2]
      exact ⟨(hCL1 k).1, (hCL1 k).2⟩
    · rw [if_neg hk2]
      exact hCL1 k
  · intro k hklen
    rw [(clear_fold_pget _ _).2 k]
    by_cases hk0 : k = 0
    · subst hk0
      rw [if_neg (by
        intro hc
        obtain ⟨h01, h02⟩ := (mem_range1_iff _ _ _).1 hc.1
        omega)]
      rw [pget_set, if_pos ⟨rfl, hne⟩]
      constructor
      · intro _
        exact ⟨le_refl 0, hX0⟩
      · intro _
        rfl
    · rw [if_pos ⟨(mem_range1_iff _ _ _).2 (by rw [hlen1]; omega), by rw [hlen1]; omega⟩]
      simp only [Bool.false_eq_true, false_iff]
      rintro ⟨hle, _⟩
      omega

/-- C2: In trace mode, `Aux_Make_Triang` reduces the coordinate matrix of
every candidate, returns the row-major lexicographically smallest reduced
matrix, and flags exactly the candidates whose reduced matrix equals this
minimum, leaving the candidate permutations themselves unchanged. -/
theorem Aux_Make_Triang_min (lim : Int) (V : Mat) (n nv : Nat) (CL : List PERM)
    (B : Mat) (CL2 : List PERM) (t2 : Int) (hne : CL ≠ [])
    (h : Aux_Make_Triang lim CL V n nv (-1) = PRes.ok (B, CL2, t2)) :
    (∀ k, k < CL.length → ∃ M, reduceOf lim V n nv (pget CL k) = PRes.ok M) ∧
    (∃ k, k < CL.length ∧ reduceOf lim V n nv (pget CL k) = PRes.ok B) ∧
    (∀ k, k < CL.length →
      Aux_XltY_Poly_NF (getOk (reduceOf lim V n nv (pget CL k))) B n nv = false) ∧
    CL2.length = CL.length ∧
    (∀ k, (pget CL2 k).C = (pget CL k).C) ∧
    (∀ k, k < CL.length →
      ((pget CL2 k).s = true ↔ reduceOf lim V n nv (pget CL k) = PRes.ok B)) := by
  have hne2 : 0 < CL.length := List.length_pos.mpr hne
  unfold Aux_Make_Triang at h
  rw [if_neg (by decide)] at h
  split at h
  · exact PRes.noConfusion h
  · rename_i X0 heq0
    rw [if_pos (show ((-1 : Int)) < 0 from by decide)] at h
    simp only [] at h
    split at h
    · exact PRes.noConfusion h
    · rename_i acc best CLf gg tf heqr
      injection h with hh
      obtain ⟨e1, e2, e3⟩ : best = B ∧ CLf = CL2 ∧ tf = t2 := by
        simpa [Prod.ext_iff] using hh
      subst e1
      subst e2
      subst e3
      have hlen2 : ((List.range' 1
          ((CL.set 0 ⟨(pget CL 0).C, (pget CL 0).L, true⟩).length - 1)).foldl
          (fun CLa s => CLa.set s ⟨(pget CLa s).C, (pget CLa s).L, false⟩)
          (CL.set 0 ⟨(pget CL 0).C, (pget CL 0).L, true⟩)).length = CL.length := by
        rw [(clear_fold_pget _ _).1]
        simp
      rw [hlen2] at heqr
      have hbase := AMT_base_inv lim V n nv CL hne2 X0 heq0
      have hfin := AMT_fold_inv lim V n nv CL (CL.length - 1) 1 X0
        ((List.range' 1
          ((CL.set 0 ⟨(pget CL 0).C, (pget CL 0).L, true⟩).length - 1)).foldl
          (fun CLa s => CLa.set s ⟨(pget CLa s).C, (pget CLa s).L, false⟩)
          (CL.set 0 ⟨(pget CL 0).C, (pget CL 0).L, true⟩))
        0 (-1) best CLf gg tf (le_refl 1) (by omega) heqr
        (by rw [show (1 : Nat) - 1 = 0 from rfl]; exact hbase)
      rw [show 1 + (CL.length - 1) - 1 = CL.length - 1 from by omega] at hfin
      obtain ⟨f0, f1, f2, f3, f4, f5, _, _⟩ := hfin
      refine ⟨?_, ?_, ?_, f3, ?_, ?_⟩
      · intro k hk
        exact f0 k (by omega)
      · obtain ⟨k, hk1, hk2⟩ := f1
        exact ⟨k, by omega, hk2⟩
      · intro k hk
        exact f2 k (by omega)
      · intro k
        exact (f4 k).1
      · intro k hk
        rw [f5 k hk]
        constructor
        · rintro ⟨_, hhh⟩
          exact hhh
        · intro hhh
          exact ⟨by omega, hhh⟩

theorem Aux_Make_Triang_min_witness :
    (([⟨[0,1],[0,1],false⟩, ⟨[1,0],[0,1],false⟩] : List PERM) ≠ []) ∧
    Aux_Make_Triang 3000 [⟨[0,1],[0,1],false⟩, ⟨[1,0],[0,1],false⟩] [[1,0],[0,2]] 2 2 (-1) =
      PRes.ok ([[1,0],[0,2]], [⟨[0,1],[0,1],true⟩, ⟨[1,0],[0,1],false⟩], -1) ∧
    ((∀ k, k < ([⟨[0,1],[0,1],false⟩, ⟨[1,0],[0,1],false⟩] : List PERM).length →
      ∃ M, reduceOf 3000 [[1,0],[0,2]] 2 2
        (pget [⟨[0,1],[0,1],false⟩, ⟨[1,0],[0,1],false⟩] k) = PRes.ok M) ∧
    (∃ k, k < ([⟨[0,1],[0,1],false⟩, ⟨[1,0],[0,1],false⟩] : List PERM).length ∧
      reduceOf 3000 [[1,0],[0,2]] 2 2
        (pget [⟨[0,1],[0,1],false⟩, ⟨[1,0],[0,1],false⟩] k) = PRes.ok [[1,0],[0,2]]) ∧
    (∀ k, k < ([⟨[0,1],[0,1],false⟩, ⟨[1,0],[0,1],false⟩] : List PERM).length →
      Aux_XltY_Poly_NF (getOk (reduceOf 3000 [[1,0],[0,2]] 2 2
        (pget [⟨[0,1],[0,1],false⟩, ⟨[1,0],[0,1],false⟩] k))) [[1,0],[0,2]] 2 2 = false) ∧
    ([⟨[0,1],[0,1],true⟩, ⟨[1,0],[0,1],false⟩] : List PERM).length =
      ([⟨[0,1],[0,1],false⟩, ⟨[1,0],[0,1],false⟩] : List PERM).length ∧
    (∀ k, (pget [⟨[0,1],[0,1],true⟩, ⟨[1,0],[0,1],false⟩] k).C =
      (pget [⟨[0,1],[0,1],false⟩, ⟨[1,0],[0,1],false⟩] k).C) ∧
    (∀ k, k < ([⟨[0,1],[0,1],false⟩, ⟨[1,0],[0,1],false⟩] : List PERM).length →
      ((pget [⟨[0,1],[0,1],true⟩, ⟨[1,0],[0,1],false⟩] k).s = true ↔
        reduceOf 3000 [[1,0],[0,2]] 2 2
          (pget [⟨[0,1],[0,1],false⟩, ⟨[1,0],[0,1],false⟩] k) = PRes.ok [[1,0],[0,2]]))) :=
  ⟨List.cons_ne_nil _ _, rfl,
    Aux_Make_Triang_min 3000 [[1,0],[0,2]] 2 2
      [⟨[0,1],[0,1],false⟩, ⟨[1,0],[0,1],false⟩] [[1,0],[0,2]]
      [⟨[0,1],[0,1],true⟩, ⟨[1,0],[0,1],false⟩] (-1) (List.cons_ne_nil _ _) rfl⟩

end PalpNF
